import Mathlib

/-!
Verification of the Phase 3 table-compression engine of the bladebit disk
plotter (`src/diskplot/DiskPlotPhase3.cpp`, `src/diskplot/DiskPlotPhase3.h`)
and of the fixed-capacity stack allocator (`src/util/StackAllocator.h`),
by a shallow embedding of the source into Lean.

Machine integers are embedded as `Nat` with explicit `% 2 ^ 32` /
`% 2 ^ 64` where the source relies on fixed-width behaviour.  Buffers are
embedded as lists or as functions, and the bucketed IO command stream of
`TableThirdStep` is embedded as an explicit list of commands.
-/

/-- Modelled from the spec: the plot size parameter `_K` is defined outside
the provided sources; spec section 6 fixes it: "`k` (the plot size parameter,
32 in practice)". -/
def kPlotParam : Nat := 32

/-- Modelled from the spec: `kExtraBits` is defined outside the provided
sources; spec section 6: "`kExtraBits` (the high-bit count used for the
original-y bucketing, typically 6 giving 64 buckets)". -/
def kExtraBits : Nat := 6

/-- Modelled from the spec: `BB_DP_BUCKET_COUNT` is defined outside the
provided sources; spec section 6: "`BB_DP_BUCKET_COUNT` is
`1 << kExtraBits`". -/
def BB_DP_BUCKET_COUNT : Nat := 1 <<< kExtraBits

/-- Modelled from the spec: `BB_DPP3_LP_BUCKET_COUNT` is defined outside the
provided sources; spec section 6: "`BB_DPP3_LP_BUCKET_COUNT = 256`". -/
def BB_DPP3_LP_BUCKET_COUNT : Nat := 256

/-- `P3_EXTRA_L_ENTRIES_TO_LOAD` from `DiskPlotPhase3.cpp`: extra l-table
entries loaded per bucket so that cross-bucket pairs resolve. -/
def P3_EXTRA_L_ENTRIES_TO_LOAD : Nat := 1024

/-! ## C1: the driver loop of `DiskPlotPhase3::Run`

`TableId` is an ordinal for tables 1..7 (spec section 3; the enum itself is
defined outside the provided sources).  `Run` executes
`for( TableId table = TableId::Table2; table < TableId::Table7; table++ )`
and calls `ProcessTable( table )` on each iteration, so the processed
r-tables are exactly the ordinals from 2 (inclusive) to 7 (exclusive). -/
def runProcessedRTables : List Nat := List.range' 2 (7 - 2)

/-- The sequence of actions `DiskPlotPhase3::ProcessTable` performs for one
r-table, in source order (DiskPlotPhase3.cpp lines 219-256). -/
inductive P3TableAction where
  | resetPrunedCount
  | resetBucketCounters
  | resetReadFence
  | step1
  | step2
  | step3
  | publishEntryCount
deriving DecidableEq

/-- The body of `DiskPlotPhase3::ProcessTable` as the ordered list of the
per-table actions it performs. -/
def processTableActions : List P3TableAction :=
  [ .resetPrunedCount, .resetBucketCounters, .resetReadFence,
    .step1, .step2, .step3, .publishEntryCount ]

/-! ## C6: the IO command trace of `DiskPlotPhase3::TableThirdStep` -/

/-- One IO-queue / fence interaction of `TableThirdStep`
(DiskPlotPhase3.cpp lines 950-1064). -/
inductive Step3Cmd where
  | seekBucketStart
  | readBucket (bucket : Nat)
  | signalFence (value : Nat)
  | seekFileStart
  | deleteBucket (bucket : Nat)
  | getWriteBuffer (bucket : Nat)
  | waitFence (value : Nat)
  | unpackBucket (bucket : Nat)
  | releaseReadBuffer (bucket : Nat)
  | writeUnpacked (bucket : Nat)
deriving DecidableEq

/-- The commands issued by one call of the local `LoadBucket` lambda of
`TableThirdStep` (lines 978-1002): read the bucket, signal fence
`bucket + 1`, then either seek the file start (bucket 0) or delete the
consumed bucket. -/
def step3LoadBucketCmds (bucket : Nat) : List Step3Cmd :=
  [ .readBucket bucket, .signalFence (bucket + 1) ] ++
    (if bucket = 0 then [ .seekFileStart ] else [ .deleteBucket bucket ])

/-- The commands of one iteration of the bucket loop of `TableThirdStep`
(lines 1008-1063).  The in-loop `LoadBucket` call (lines 1022-1031) is
commented out in the source, so no read is issued here. -/
def step3LoopIterCmds (bucket : Nat) : List Step3Cmd :=
  [ .getWriteBuffer bucket, .waitFence (bucket + 1), .unpackBucket bucket,
    .releaseReadBuffer bucket, .writeUnpacked bucket ]

/-- The full IO command trace of `TableThirdStep`: seek, one initial
`LoadBucket( true )`, then the loop over all `BB_DP_BUCKET_COUNT` buckets. -/
def tableThirdStepCmds : List Step3Cmd :=
  [ .seekBucketStart ] ++ step3LoadBucketCmds 0 ++
    ((List.range BB_DP_BUCKET_COUNT).map step3LoopIterCmds).flatten

/-! ## C9: `StackAllocator` (`src/util/StackAllocator.h`) -/

/-- Modelled from the spec: `RoundUpToNextBoundaryT` (from a utility header
outside the provided sources) rounds `value` up to the next multiple of
`boundary`; spec section 4.1: "Round each to the underlying IO block
size". -/
def RoundUpToNextBoundaryT (value boundary : Nat) : Nat :=
  (value + boundary - 1) / boundary * boundary

/-- `StackAllocator` state: the buffer base pointer is irrelevant to the
offset arithmetic, so the embedding keeps only `_capacity` and `_size`. -/
structure StackAllocator where
  capacity : Nat
  size : Nat := 0
deriving DecidableEq

/-- `StackAllocator::Alloc( size, alignment )`: returns the offset
`paddedSize = RoundUpToNextBoundaryT( _size, alignment )` of the returned
region from the buffer base, and sets `_size = paddedSize + size`. -/
def StackAllocator.alloc (a : StackAllocator) (sz alignment : Nat) :
    Nat × StackAllocator :=
  let paddedSize := RoundUpToNextBoundaryT a.size alignment
  (paddedSize, { a with size := paddedSize + sz })

/-- Run a sequence of `Alloc( size, alignment )` calls, collecting the
returned regions as `(offset, size)` pairs. -/
def StackAllocator.allocSeq (a : StackAllocator) :
    List (Nat × Nat) → List (Nat × Nat) × StackAllocator
  | [] => ([], a)
  | (sz, al) :: rest =>
    let r := a.alloc sz al
    let rs := r.2.allocSeq rest
    ((r.1, sz) :: rs.1, rs.2)

/-- The successive values of `_size` after each call of a sequence. -/
def StackAllocator.sizeTrace (a : StackAllocator) :
    List (Nat × Nat) → List Nat
  | [] => []
  | (sz, al) :: rest =>
    let r := a.alloc sz al
    r.2.size :: r.2.sizeTrace rest

/-! ## C10 / C7: `TableThirdStep` sizing and `LPUnpackMapJob` -/

/-- `fixedBucketLength` / `fixedBucketSize` of `TableThirdStep` and
`LPUnpackMapJob::Run`: `(uint32)( maxEntries / BB_DP_BUCKET_COUNT )` with
`maxEntries = 1ull << _K`. -/
def fixedBucketSize : Nat := (1 <<< kPlotParam) / BB_DP_BUCKET_COUNT

/-- `lastBucketSize` of `TableThirdStep`:
`tableEntryCount - fixedBucketSize * ( BucketCount - 1 )`. -/
def lastBucketSize (tableEntryCount : Nat) : Nat :=
  tableEntryCount - fixedBucketSize * (BB_DP_BUCKET_COUNT - 1)

/-- `writeEntryCount` of the `TableThirdStep` bucket loop:
`isLastBucket ? lastBucketSize : fixedBucketSize`. -/
def step3WriteEntryCount (tableEntryCount bucket : Nat) : Nat :=
  if bucket + 1 = BB_DP_BUCKET_COUNT then lastBucketSize tableEntryCount
  else fixedBucketSize

/-- The published per-table entry counts (`context.entryCounts`). -/
structure P3Context where
  entryCounts : Nat → Nat

/-- `DiskPlotPhase3::ProcessTable` as a state transformer on
`context.entryCounts`: `TableThirdStep` reads
`context.entryCounts[(int)rTable]` (line 962) before the driver publishes
`context.entryCounts[(int)rTable] = _prunedEntryCount` (line 255).  The
first component is the count observed by Step 3, the second the context
after the publish. -/
def processTableModel (ctx : P3Context) (rTable prunedCount : Nat) :
    Nat × P3Context :=
  (ctx.entryCounts rTable,
   ⟨fun t => if t = rTable then prunedCount else ctx.entryCounts t⟩)

/-- Cast to `uint32`. -/
def u32cast (n : Nat) : Nat := n % 2 ^ 32

/-- `uint32` subtraction `x - y` (wrapping), for `x, y < 2 ^ 32`. -/
def u32sub (x y : Nat) : Nat := (x + 2 ^ 32 - y) % 2 ^ 32

/-- `bucketOffset` of `LPUnpackMapJob::Run`:
`(uint32)( fixedBucketLength * this->bucket )`. -/
def lpUnpackBucketOffset (bucket : Nat) : Nat :=
  u32cast (fixedBucketSize * bucket)

/-- The destination index computed by `LPUnpackMapJob::Run` for a packed
record `m`: `const uint32 idx = (uint32)m - bucketOffset;` in `uint32`
arithmetic. -/
def lpUnpackWriteIdx (bucket m : Nat) : Nat :=
  u32sub (u32cast m) (lpUnpackBucketOffset bucket)

/-- The value written by `LPUnpackMapJob::Run`: `(uint32)(m >> 32)`. -/
def lpUnpackValue (m : Nat) : Nat := u32cast (m >>> 32)

/-- `LPUnpackMapJob::Run` over a bucket of packed records `mapSrc`: each
record writes its high 32 bits into the dense output at its computed index;
all other positions of the destination are untouched.  The destination is
a function `Nat → Option Nat` so that "never written" is observable. -/
def lpUnpackMap (bucket : Nat) (mapSrc : List Nat)
    (mapDst : Nat → Option Nat) : Nat → Option Nat :=
  mapSrc.foldl
    (fun dst m =>
      Function.update dst (lpUnpackWriteIdx bucket m) (some (lpUnpackValue m)))
    mapDst

/-! ### Helper lemmas -/

lemma roundUp_ge (x al : Nat) (h : 0 < al) : x ≤ RoundUpToNextBoundaryT x al := by
  unfold RoundUpToNextBoundaryT
  have hdm := Nat.div_add_mod (x + al - 1) al
  have hlt : (x + al - 1) % al < al := Nat.mod_lt _ h
  have hcomm : (x + al - 1) / al * al = al * ((x + al - 1) / al) :=
    Nat.mul_comm _ _
  omega

lemma allocSeq_bounds (a : StackAllocator) (reqs : List (Nat × Nat))
    (hpos : ∀ p ∈ reqs, 0 < p.1 ∧ 0 < p.2) :
    a.size ≤ (a.allocSeq reqs).2.size ∧
      ∀ r ∈ (a.allocSeq reqs).1,
        a.size ≤ r.1 ∧ r.1 + r.2 ≤ (a.allocSeq reqs).2.size := by
  induction reqs generalizing a with
  | nil => simp [StackAllocator.allocSeq]
  | cons p rest ih =>
    obtain ⟨sz, al⟩ := p
    obtain ⟨hsz, hal⟩ := hpos (sz, al) (List.mem_cons_self _ _)
    have hpad : a.size ≤ RoundUpToNextBoundaryT a.size al := roundUp_ge _ _ hal
    have ihr := ih (a.alloc sz al).2 (fun q hq => hpos q (List.mem_cons_of_mem _ hq))
    have h1 : (a.alloc sz al).1 = RoundUpToNextBoundaryT a.size al := rfl
    have h2 : (a.alloc sz al).2.size = RoundUpToNextBoundaryT a.size al + sz := rfl
    simp only [StackAllocator.allocSeq]
    constructor
    · exact le_trans (by omega) ihr.1
    · intro r hr
      rcases List.mem_cons.1 hr with heq | hmem
      · subst heq
        have := ihr.1
        simp only [h1]
        omega
      · have := ihr.2 r hmem
        exact ⟨le_trans (by omega) this.1, this.2⟩

lemma sizeTrace_chain (a : StackAllocator) (reqs : List (Nat × Nat))
    (hpos : ∀ p ∈ reqs, 0 < p.1 ∧ 0 < p.2) :
    List.Chain' (· < ·) (a.size :: a.sizeTrace reqs) := by
  induction reqs generalizing a with
  | nil => simp [StackAllocator.sizeTrace]
  | cons p rest ih =>
    obtain ⟨sz, al⟩ := p
    obtain ⟨hsz, hal⟩ := hpos (sz, al) (List.mem_cons_self _ _)
    have hpad : a.size ≤ RoundUpToNextBoundaryT a.size al := roundUp_ge _ _ hal
    have ihr := ih (a.alloc sz al).2 (fun q hq => hpos q (List.mem_cons_of_mem _ hq))
    have h2 : (a.alloc sz al).2.size = RoundUpToNextBoundaryT a.size al + sz := rfl
    simp only [StackAllocator.sizeTrace]
    refine List.Chain'.cons ?_ ihr
    omega

lemma allocSeq_pairwise (a : StackAllocator) (reqs : List (Nat × Nat))
    (hpos : ∀ p ∈ reqs, 0 < p.1 ∧ 0 < p.2) :
    List.Pairwise (fun r1 r2 => r1.1 + r1.2 ≤ r2.1) (a.allocSeq reqs).1 := by
  induction reqs generalizing a with
  | nil => simp [StackAllocator.allocSeq]
  | cons p rest ih =>
    obtain ⟨sz, al⟩ := p
    obtain ⟨hsz, hal⟩ := hpos (sz, al) (List.mem_cons_self _ _)
    have ihr := ih (a.alloc sz al).2 (fun q hq => hpos q (List.mem_cons_of_mem _ hq))
    have hb := allocSeq_bounds (a.alloc sz al).2 rest
      (fun q hq => hpos q (List.mem_cons_of_mem _ hq))
    simp only [StackAllocator.allocSeq]
    refine List.Pairwise.cons ?_ ihr
    intro r hr
    have hmem := (hb.2 r hr).1
    have h2 : (a.alloc sz al).2.size = RoundUpToNextBoundaryT a.size al + sz := rfl
    have h1 : (a.alloc sz al).1 = RoundUpToNextBoundaryT a.size al := rfl
    simp only [h1]
    omega

/-! ### C1 theorem -/

/-- C1: the claim states that the Phase 3 driver performs the per-table
iteration for every r-table in {2,..,7}, in particular table 7.  The code
is wrong: `DiskPlotPhase3::Run` iterates `table < TableId::Table7`, so the
processed r-tables are exactly 2..6 and table 7 is never processed, even
though every processed table does get the full action sequence (reset
counters, reset fence, Step 1, Step 2, Step 3, publish). -/
theorem c1_run_skips_table7 :
    runProcessedRTables = [2, 3, 4, 5, 6] ∧
    (7 : Nat) ∉ runProcessedRTables ∧
    processTableActions =
      [ .resetPrunedCount, .resetBucketCounters, .resetReadFence,
        .step1, .step2, .step3, .publishEntryCount ] := by
  refine ⟨by decide, by decide, rfl⟩

/-! ### C6 theorem -/

/-- C6: the claim states that Step 3 issues a disk read for every
reverse-map bucket and that each bucket's fence wait is satisfied before
the bucket is unpacked.  The code is wrong: the in-loop `LoadBucket` call
of `TableThirdStep` is commented out, so the only read ever issued is for
bucket 0 and the only fence value ever signalled is 1; yet the loop still
waits on fence value 2 and unpacks bucket 1 (and every later bucket) whose
buffer was never read. -/
theorem c6_step3_missing_reads :
    (tableThirdStepCmds.filter
        (fun c => match c with | .readBucket _ => true | _ => false)) =
      [ .readBucket 0 ] ∧
    Step3Cmd.readBucket 1 ∉ tableThirdStepCmds ∧
    Step3Cmd.unpackBucket 1 ∈ tableThirdStepCmds ∧
    Step3Cmd.waitFence 2 ∈ tableThirdStepCmds ∧
    Step3Cmd.signalFence 2 ∉ tableThirdStepCmds := by
  refine ⟨by decide, by decide, by decide, by decide, by decide⟩

/-! ### C9 theorem -/

/-- C9: for every sequence of `StackAllocator::Alloc( size, alignment )`
calls with positive sizes and alignments, each call returns the region
starting at offset `RoundUpToNextBoundaryT( _size, alignment )` from the
buffer base, `_size` strictly increases with each call, and the returned
regions `[offset, offset + size)` are pairwise disjoint (each region ends
no later than the next begins). -/
theorem c9_stack_allocator (a : StackAllocator) (reqs : List (Nat × Nat))
    (hpos : ∀ p ∈ reqs, 0 < p.1 ∧ 0 < p.2) :
    (∀ (b : StackAllocator) (sz al : Nat),
        (b.alloc sz al).1 = RoundUpToNextBoundaryT b.size al ∧
        (b.alloc sz al).2.size = RoundUpToNextBoundaryT b.size al + sz) ∧
    List.Chain' (· < ·) (a.size :: a.sizeTrace reqs) ∧
    List.Pairwise (fun r1 r2 => r1.1 + r1.2 ≤ r2.1) (a.allocSeq reqs).1 := by
  refine ⟨fun b sz al => ⟨rfl, rfl⟩, sizeTrace_chain a reqs hpos,
    allocSeq_pairwise a reqs hpos⟩

/-- Witness for C9 at a concrete allocation sequence. -/
theorem c9_stack_allocator_witness :
    (∀ p ∈ [((5 : Nat), (4 : Nat)), (3, 8), (16, 1)], 0 < p.1 ∧ 0 < p.2) ∧
    List.Chain' (· < ·)
      ((StackAllocator.mk 64 0).size ::
        (StackAllocator.mk 64 0).sizeTrace [(5, 4), (3, 8), (16, 1)]) ∧
    List.Pairwise (fun r1 r2 => r1.1 + r1.2 ≤ r2.1)
      ((StackAllocator.mk 64 0).allocSeq [(5, 4), (3, 8), (16, 1)]).1 := by
  refine ⟨by decide, ?_, ?_⟩
  · exact (c9_stack_allocator (StackAllocator.mk 64 0)
      [(5, 4), (3, 8), (16, 1)] (by decide)).2.1
  · exact (c9_stack_allocator (StackAllocator.mk 64 0)
      [(5, 4), (3, 8), (16, 1)] (by decide)).2.2

/-! ### C10 theorem -/

lemma step3WriteSizes_sum (cnt : Nat)
    (h : fixedBucketSize * (BB_DP_BUCKET_COUNT - 1) ≤ cnt) :
    ((List.range BB_DP_BUCKET_COUNT).map (step3WriteEntryCount cnt)).sum = cnt := by
  have hB : BB_DP_BUCKET_COUNT = 64 := by decide
  rw [hB] at h ⊢
  rw [List.range_succ, List.map_append, List.sum_append]
  have hfixed : ∀ b ∈ List.range 63, step3WriteEntryCount cnt b = fixedBucketSize := by
    intro b hb
    have hb' := List.mem_range.1 hb
    unfold step3WriteEntryCount
    have hne : ¬ (b + 1 = BB_DP_BUCKET_COUNT) := by omega
    simp [hne]
  rw [List.map_congr_left hfixed]
  have hconst : ((List.range 63).map (fun _ => fixedBucketSize)).sum =
      63 * fixedBucketSize := by
    rw [List.map_const', List.sum_replicate, smul_eq_mul]
    simp
  rw [hconst]
  have hlast : step3WriteEntryCount cnt 63 = lastBucketSize cnt := by
    unfold step3WriteEntryCount
    simp [hB]
  have hm1 : List.map (step3WriteEntryCount cnt) [63] = [lastBucketSize cnt] := by
    rw [List.map_cons, List.map_nil, hlast]
  rw [hm1, List.sum_cons, List.sum_nil]
  unfold lastBucketSize
  rw [hB]
  omega

/-- C10: `context.entryCounts[rTable]` still holds the pre-pruning entry
count when `TableThirdStep` reads it, and is overwritten with the pruned
count only afterwards; Step 3 therefore sizes its dense-output writes from
the pre-pruning count: `fixedBucketSize` entries per bucket except the last
and `lastBucketSize` for the last, totalling the unpruned entry count of
the r-table. -/
theorem c10_entrycount_frame (ctx : P3Context) (rTable prunedCount : Nat)
    (h : fixedBucketSize * (BB_DP_BUCKET_COUNT - 1) ≤ ctx.entryCounts rTable) :
    (processTableModel ctx rTable prunedCount).1 = ctx.entryCounts rTable ∧
    (processTableModel ctx rTable prunedCount).2.entryCounts rTable = prunedCount ∧
    (∀ t, t ≠ rTable →
      (processTableModel ctx rTable prunedCount).2.entryCounts t = ctx.entryCounts t) ∧
    ((List.range BB_DP_BUCKET_COUNT).map
        (step3WriteEntryCount (processTableModel ctx rTable prunedCount).1)).sum =
      ctx.entryCounts rTable := by
  refine ⟨rfl, by simp [processTableModel], ?_, ?_⟩
  · intro t ht
    simp [processTableModel, ht]
  · exact step3WriteSizes_sum _ h

/-- Witness for C10 at a concrete context. -/
theorem c10_entrycount_frame_witness :
    fixedBucketSize * (BB_DP_BUCKET_COUNT - 1) ≤
      (P3Context.mk fun _ => 2 ^ 32).entryCounts 6 ∧
    (processTableModel (P3Context.mk fun _ => 2 ^ 32) 6 12345).1 = 2 ^ 32 ∧
    ((List.range BB_DP_BUCKET_COUNT).map
        (step3WriteEntryCount
          (processTableModel (P3Context.mk fun _ => 2 ^ 32) 6 12345).1)).sum =
      2 ^ 32 := by
  have h : fixedBucketSize * (BB_DP_BUCKET_COUNT - 1) ≤
      (P3Context.mk fun _ => 2 ^ 32).entryCounts 6 := by decide
  have hc := c10_entrycount_frame (P3Context.mk fun _ => 2 ^ 32) 6 12345 h
  exact ⟨h, hc.1, hc.2.2.2⟩

/-! ### C7 theorem -/

lemma lpUnpackMap_notIn (bucket : Nat) (mapSrc : List Nat)
    (d0 : Nat → Option Nat) (idx : Nat)
    (h : ∀ m ∈ mapSrc, lpUnpackWriteIdx bucket m ≠ idx) :
    lpUnpackMap bucket mapSrc d0 idx = d0 idx := by
  induction mapSrc generalizing d0 with
  | nil => rfl
  | cons m rest ih =>
    have hm := h m (List.mem_cons_self _ _)
    have hrest : ∀ x ∈ rest, lpUnpackWriteIdx bucket x ≠ idx :=
      fun x hx => h x (List.mem_cons_of_mem _ hx)
    simp only [lpUnpackMap, List.foldl_cons]
    rw [show List.foldl _ _ rest = lpUnpackMap bucket rest
        (Function.update d0 (lpUnpackWriteIdx bucket m) (some (lpUnpackValue m)))
      from rfl]
    rw [ih _ hrest]
    exact Function.update_noteq (by omega) _ _

lemma lpUnpackMap_writes (bucket : Nat) (mapSrc : List Nat)
    (d0 : Nat → Option Nat)
    (hnodup : (mapSrc.map (lpUnpackWriteIdx bucket)).Nodup) :
    ∀ m ∈ mapSrc,
      lpUnpackMap bucket mapSrc d0 (lpUnpackWriteIdx bucket m) =
        some (lpUnpackValue m) := by
  induction mapSrc generalizing d0 with
  | nil => intro m hm; cases hm
  | cons m0 rest ih =>
    rw [List.map_cons, List.nodup_cons] at hnodup
    have hnodup' : (rest.map (lpUnpackWriteIdx bucket)).Nodup := hnodup.2
    intro m hm
    rcases List.mem_cons.1 hm with heq | hmem
    · subst heq
      simp only [lpUnpackMap, List.foldl_cons]
      rw [show List.foldl _ _ rest = lpUnpackMap bucket rest
          (Function.update d0 (lpUnpackWriteIdx bucket m) (some (lpUnpackValue m)))
        from rfl]
      have hnotin : ∀ x ∈ rest, lpUnpackWriteIdx bucket x ≠ lpUnpackWriteIdx bucket m := by
        intro x hx hcontra
        exact hnodup.1 (List.mem_map.2 ⟨x, hx, hcontra⟩)
      rw [lpUnpackMap_notIn bucket rest _ _ hnotin]
      simp
    · simp only [lpUnpackMap, List.foldl_cons]
      rw [show List.foldl _ _ rest = lpUnpackMap bucket rest
          (Function.update d0 (lpUnpackWriteIdx bucket m0) (some (lpUnpackValue m0)))
        from rfl]
      exact ih _ hnodup' m hmem

/-- C7: in Step 3, for every record `m` of a reverse-map bucket `b`, the
unpack job writes the record's high 32 bits into the dense output at index
`(uint32)m - bucketOffset` with `bucketOffset = b * (2^K / BB_DP_BUCKET_COUNT)`
(equal to `(m & 0xFFFFFFFF) - bucketBase` whenever the subtraction does not
underflow), and positions of the dense array not named by any record keep
their previous (unwritten) contents. -/
theorem c7_unpack_dense_writes (bucket : Nat) (mapSrc : List Nat)
    (d0 : Nat → Option Nat)
    (hnodup : (mapSrc.map (lpUnpackWriteIdx bucket)).Nodup) :
    (∀ idx, (∀ m ∈ mapSrc, lpUnpackWriteIdx bucket m ≠ idx) →
        lpUnpackMap bucket mapSrc d0 idx = d0 idx) ∧
    (∀ m ∈ mapSrc,
        lpUnpackMap bucket mapSrc d0 (lpUnpackWriteIdx bucket m) =
          some (lpUnpackValue m)) ∧
    (∀ m, lpUnpackBucketOffset bucket ≤ u32cast m →
        lpUnpackWriteIdx bucket m = u32cast m - lpUnpackBucketOffset bucket) := by
  refine ⟨fun idx h => lpUnpackMap_notIn bucket mapSrc d0 idx h,
    lpUnpackMap_writes bucket mapSrc d0 hnodup, ?_⟩
  intro m hle
  unfold lpUnpackWriteIdx u32sub
  have h1 : u32cast m < 2 ^ 32 := Nat.mod_lt _ (by norm_num)
  have h2 : u32cast m + 2 ^ 32 - lpUnpackBucketOffset bucket =
      (u32cast m - lpUnpackBucketOffset bucket) + 2 ^ 32 := by omega
  rw [h2, Nat.add_mod_right, Nat.mod_eq_of_lt (by omega)]

/-- Witness for C7 at a concrete bucket of records. -/
theorem c7_unpack_dense_writes_witness :
    (([(5 <<< 32) ||| (2 ^ 26 + 3), (9 <<< 32) ||| (2 ^ 26 + 1)].map
        (lpUnpackWriteIdx 1)).Nodup) ∧
    lpUnpackMap 1 [(5 <<< 32) ||| (2 ^ 26 + 3), (9 <<< 32) ||| (2 ^ 26 + 1)]
        (fun _ => none) (lpUnpackWriteIdx 1 ((5 <<< 32) ||| (2 ^ 26 + 3))) =
      some (lpUnpackValue ((5 <<< 32) ||| (2 ^ 26 + 3))) := by
  have hnodup : (([(5 <<< 32) ||| (2 ^ 26 + 3), (9 <<< 32) ||| (2 ^ 26 + 1)].map
      (lpUnpackWriteIdx 1)).Nodup) := by decide
  refine ⟨hnodup, ?_⟩
  exact (c7_unpack_dense_writes 1 _ (fun _ => none) hnodup).2.1
    _ (List.mem_cons_self _ _)

/-! ## C2: Step 1 prune counting (`ConvertToLPJob::Run`)

The marked-entries table is a `BitField` over `uint64` words (BitField.h is
outside the provided sources); modelled from the spec, section 3: "a bit per
r-entry, keyed by r-entry's original index", as a predicate `Nat → Bool`.
`rMap` buckets are embedded as lists of `uint32` original indices, indexed
with `List.getD` as the C code indexes the array. -/

/-- `entryCount = bucketEntryCount / threadCount` of `ConvertToLPJob::Run`
(before the last-thread adjustment). -/
def convertToLPEntriesPerThread (bucketEntryCount threadCount : Nat) : Nat :=
  bucketEntryCount / threadCount

/-- `bucketOffset = entryCount * jobId` of `ConvertToLPJob::Run`. -/
def convertToLPJobOffset (bucketEntryCount threadCount id : Nat) : Nat :=
  convertToLPEntriesPerThread bucketEntryCount threadCount * id

/-- The entry count processed by thread `id`: the last thread takes the
remainder (`entryCount += bucketEntryCount - entryCount * threadCount`). -/
def convertToLPJobCount (bucketEntryCount threadCount id : Nat) : Nat :=
  if id + 1 = threadCount then
    bucketEntryCount - convertToLPJobOffset bucketEntryCount threadCount id
  else convertToLPEntriesPerThread bucketEntryCount threadCount

/-- The index range scanned by thread `id` (`bucketOffset ..< end`). -/
def convertToLPJobRange (bucketEntryCount threadCount id : Nat) : List Nat :=
  List.range' (convertToLPJobOffset bucketEntryCount threadCount id)
    (convertToLPJobCount bucketEntryCount threadCount id)

/-- `prunedEntryCount` of one `ConvertToLPJob` thread: the number of `i` in
its range with `markedEntries.Get( rMap[i] )` set. -/
def jobPrunedEntryCount (marked : Nat → Bool) (rMap : List Nat)
    (threadCount id : Nat) : Nat :=
  (convertToLPJobRange rMap.length threadCount id).countP
    (fun i => marked (rMap.getD i 0))

/-- `totalPrunedEntryCount` of a bucket: the sum of the per-thread pruned
counts (computed by the control thread in `DistributeToBuckets`). -/
def totalPrunedEntryCount (marked : Nat → Bool) (rMap : List Nat)
    (threadCount : Nat) : Nat :=
  ((List.range threadCount).map (jobPrunedEntryCount marked rMap threadCount)).sum

/-- The pruned keys (`rMapPruned` entries) written by one thread: the
marked `rMap[i]` values of its range, in scan order. -/
def jobPrunedKeys (marked : Nat → Bool) (rMap : List Nat)
    (threadCount id : Nat) : List Nat :=
  ((convertToLPJobRange rMap.length threadCount id).map
    (fun i => rMap.getD i 0)).filter marked

/-- The pruned keys of a whole bucket (all threads, in thread order, which
is also the order of the shared `rMapPruned` buffer). -/
def bucketPrunedKeys (marked : Nat → Bool) (rMap : List Nat)
    (threadCount : Nat) : List Nat :=
  ((List.range threadCount).map (jobPrunedKeys marked rMap threadCount)).flatten

/-- `_prunedEntryCount` accumulated by `BucketFirstStep` over all buckets of
one r-table (the value published as the table's new entry count). -/
def tablePrunedCount (marked : Nat → Bool) (buckets : List (List Nat))
    (threadCount : Nat) : Nat :=
  (buckets.map (fun rMap => totalPrunedEntryCount marked rMap threadCount)).sum

/-- The pruned keys of a whole r-table. -/
def tablePrunedKeys (marked : Nat → Bool) (buckets : List (List Nat))
    (threadCount : Nat) : List Nat :=
  (buckets.map (fun rMap => bucketPrunedKeys marked rMap threadCount)).flatten

/-- The number of set bits of the marked-entries bitmap over the table's
`numEntries` original indices. -/
def bitFieldPopCount (marked : Nat → Bool) (numEntries : Nat) : Nat :=
  (List.range numEntries).countP marked

/-! ### C2 helper lemmas -/

lemma range_map_getD {α : Type} (l : List α) (d : α) :
    (List.range l.length).map (fun i => l.getD i d) = l := by
  apply List.ext_getElem
  · simp
  · intro i h1 h2
    simp [List.getD_eq_getElem?_getD, List.getElem?_eq_getElem h2]

lemma flatten_uniform_chunks (q k : Nat) :
    ((List.range k).map (fun id => List.range' (q * id) q)).flatten =
      List.range' 0 (q * k) := by
  induction k with
  | zero => simp
  | succ n ih =>
    rw [List.range_succ, List.map_append, List.flatten_append, ih]
    simp only [List.map_cons, List.map_nil, List.flatten_cons, List.flatten_nil,
      List.append_nil]
    have := List.range'_append_1 0 (q * n) q
    rw [Nat.zero_add] at this
    rw [this, Nat.mul_succ, Nat.add_comm]

lemma convertToLPJobRange_flatten (total t : Nat) (ht : 0 < t) :
    ((List.range t).map (convertToLPJobRange total t)).flatten = List.range total := by
  obtain ⟨n, rfl⟩ : ∃ n, t = n + 1 := ⟨t - 1, by omega⟩
  rw [List.range_succ, List.map_append, List.flatten_append]
  have hfirst : (List.range n).map (convertToLPJobRange total (n + 1)) =
      (List.range n).map (fun id => List.range' (total / (n + 1) * id) (total / (n + 1))) := by
    apply List.map_congr_left
    intro id hid
    have hid' := List.mem_range.1 hid
    unfold convertToLPJobRange convertToLPJobCount convertToLPJobOffset
      convertToLPEntriesPerThread
    have hne : ¬ (id + 1 = n + 1) := by omega
    rw [if_neg hne]
  rw [hfirst, flatten_uniform_chunks]
  have hlast : convertToLPJobRange total (n + 1) n =
      List.range' (total / (n + 1) * n) (total - total / (n + 1) * n) := by
    unfold convertToLPJobRange convertToLPJobCount convertToLPJobOffset
      convertToLPEntriesPerThread
    rw [if_pos rfl]
  simp only [List.map_cons, List.map_nil, List.flatten_cons, List.flatten_nil,
    List.append_nil, hlast]
  have hle : total / (n + 1) * n ≤ total := by
    calc total / (n + 1) * n ≤ total / (n + 1) * (n + 1) :=
          Nat.mul_le_mul_left _ (by omega)
      _ ≤ total := Nat.div_mul_le_self _ _
  have := List.range'_append_1 0 (total / (n + 1) * n) (total - total / (n + 1) * n)
  rw [Nat.zero_add] at this
  rw [this, List.range_eq_range']
  congr 1
  omega

lemma totalPrunedEntryCount_eq (marked : Nat → Bool) (rMap : List Nat)
    (t : Nat) (ht : 0 < t) :
    totalPrunedEntryCount marked rMap t = rMap.countP marked := by
  unfold totalPrunedEntryCount jobPrunedEntryCount
  rw [show ((List.range t).map fun id =>
      (convertToLPJobRange rMap.length t id).countP fun i => marked (rMap.getD i 0)) =
      (((List.range t).map (convertToLPJobRange rMap.length t)).map
        (List.countP fun i => marked (rMap.getD i 0))) from by rw [List.map_map]; rfl]
  rw [← List.countP_flatten, convertToLPJobRange_flatten _ _ ht]
  have h1 : (List.range rMap.length).countP (fun i => marked (rMap.getD i 0)) =
      ((List.range rMap.length).map (fun i => rMap.getD i 0)).countP marked := by
    rw [List.countP_map]
    rfl
  rw [h1, range_map_getD]

lemma bucketPrunedKeys_eq (marked : Nat → Bool) (rMap : List Nat)
    (t : Nat) (ht : 0 < t) :
    bucketPrunedKeys marked rMap t = rMap.filter marked := by
  unfold bucketPrunedKeys jobPrunedKeys
  rw [show ((List.range t).map fun id =>
      ((convertToLPJobRange rMap.length t id).map fun i => rMap.getD i 0).filter marked) =
      ((((List.range t).map (convertToLPJobRange rMap.length t)).map
        (List.map fun i => rMap.getD i 0)).map (List.filter marked)) from by
        rw [List.map_map, List.map_map]; rfl]
  rw [← List.filter_flatten, ← List.map_flatten, convertToLPJobRange_flatten _ _ ht,
    range_map_getD]

/-! ### C2 theorem -/

/-- C2: for an r-table whose concatenated `rMap` buckets enumerate each
original index exactly once, the total pruned entry count accumulated by
Step 1 across all buckets and worker threads equals the number of set bits
of the marked-entries bitmap, and the pruned keys emitted to `rMapPruned`
are exactly the `rMap[i]` values whose bitmap bit is set, in order. -/
theorem c2_prune_conservation (marked : Nat → Bool) (buckets : List (List Nat))
    (threadCount numEntries : Nat) (ht : 0 < threadCount)
    (hperm : buckets.flatten.Perm (List.range numEntries)) :
    tablePrunedCount marked buckets threadCount = bitFieldPopCount marked numEntries ∧
    tablePrunedKeys marked buckets threadCount = buckets.flatten.filter marked := by
  constructor
  · unfold tablePrunedCount bitFieldPopCount
    have h1 : (buckets.map fun rMap => totalPrunedEntryCount marked rMap threadCount)
        = buckets.map (List.countP marked) := by
      apply List.map_congr_left
      intro r hr
      exact totalPrunedEntryCount_eq marked r threadCount ht
    rw [h1, ← List.countP_flatten, hperm.countP_eq]
  · unfold tablePrunedKeys
    have h1 : (buckets.map fun rMap => bucketPrunedKeys marked rMap threadCount)
        = buckets.map (List.filter marked) := by
      apply List.map_congr_left
      intro r hr
      exact bucketPrunedKeys_eq marked r threadCount ht
    rw [h1, ← List.filter_flatten]

/-- Witness for C2 at a concrete bitmap and bucket set. -/
theorem c2_prune_conservation_witness :
    (0 : Nat) < 2 ∧
    ([[2, 0], [1, 3]] : List (List Nat)).flatten.Perm (List.range 4) ∧
    tablePrunedCount (fun i => i % 2 == 0) [[2, 0], [1, 3]] 2 =
      bitFieldPopCount (fun i => i % 2 == 0) 4 ∧
    tablePrunedKeys (fun i => i % 2 == 0) [[2, 0], [1, 3]] 2 =
      ([[2, 0], [1, 3]] : List (List Nat)).flatten.filter (fun i => i % 2 == 0) := by
  have ht : (0 : Nat) < 2 := by decide
  have hperm : ([[2, 0], [1, 3]] : List (List Nat)).flatten.Perm (List.range 4) := by
    decide
  have h := c2_prune_conservation (fun i => i % 2 == 0) [[2, 0], [1, 3]] 2 4 ht hperm
  exact ⟨ht, hperm, h.1, h.2⟩

/-! ## C3 / C4 / C8: the Step 1 / Step 2 dataflow

The per-bucket inputs of Step 1 are the parallel arrays
`rTablePairs.left[]` (u32), `rTablePairs.right[]` (u16) and `rMap[]` (u32);
an entry is one row across the three arrays.  `lMap` is the l-table window
of the bucket (a `uint32` array), embedded as a function. -/

/-- One r-table entry of a Step 1 bucket: `pairs.left[i]`,
`pairs.right[i]` and `rMap[i]`. -/
structure P3Entry where
  left : Nat
  rightOff : Nat
  mapIdx : Nat
deriving DecidableEq

/-- Modelled from the spec: `SquareToLinePoint` (memplot/LPGen.h, outside
the provided sources); spec glossary: "a bijective scalar encoding of an
unordered pair `(x,y)` defined by `T(max(x,y)) + min(x,y)` with
`T(n) = n(n-1)/2`". -/
def SquareToLinePoint (x y : Nat) : Nat :=
  if y < x then x * (x - 1) / 2 + y else y * (y - 1) / 2 + x

/-- The pruning pass of `ConvertToLPJob::Run`: keep the entries whose
`rMap[i]` bit is set in the marked-entries table. -/
def pruneBucket (marked : Nat → Bool) (entries : List P3Entry) : List P3Entry :=
  entries.filter (fun e => marked e.mapIdx)

/-- The line point of one surviving entry:
`x = lTable[p.left]; y = lTable[p.right]` with
`p.right = p.left + pairs.right[i]`, then `SquareToLinePoint( x, y )`. -/
def entryLinePoint (lMap : Nat → Nat) (e : P3Entry) : Nat :=
  SquareToLinePoint (lMap e.left) (lMap (e.left + e.rightOff))

/-- Step 1 output of one bucket: the `(linePoint, key)` pairs of the
surviving entries, in bucket order (`key` is the original index
`rMap[i]`). -/
def step1Bucket (marked : Nat → Bool) (lMap : Nat → Nat)
    (entries : List P3Entry) : List (Nat × Nat) :=
  (pruneBucket marked entries).map (fun e => (entryLinePoint lMap e, e.mapIdx))

/-- Step 1 output of a whole r-table: one `(lMap window, entries)` pair per
input bucket, concatenated in bucket order. -/
def step1Table (marked : Nat → Bool)
    (tbl : List ((Nat → Nat) × List P3Entry)) : List (Nat × Nat) :=
  (tbl.map (fun bk => step1Bucket marked bk.1 bk.2)).flatten

/-- The line-point bucket id: `(*lp) >> 56`. -/
def lpBucketOf (lp : Nat) : Nat := lp >>> 56

/-- The content of line-point output bucket `b` after the Step 1 scatter.
The scatter writes `lpOutBuffer[--pfxSum[bucket]] = lp` while scanning the
staging buffer forward, so each bucket holds its entries in reverse scan
order. -/
def lpBucket (lps : List (Nat × Nat)) (b : Nat) : List (Nat × Nat) :=
  (lps.filter (fun e => lpBucketOf e.1 == b)).reverse

/-- Modelled from the spec: `RadixSort256::SortWithKey` (outside the
provided sources) sorts the line points ascending with the key array riding
the sort (spec section 4.4); embedded as a merge sort of the
`(linePoint, key)` pairs by line point. -/
def sortedLpBucket (lps : List (Nat × Nat)) (b : Nat) : List (Nat × Nat) :=
  (lpBucket lps b).mergeSort (fun x y => Nat.ble x.1 y.1)

/-- `_lpBucketCounts[b]` after Step 1: the per-bucket-chunk scatter counts
of line-point bucket `b`, accumulated over all input buckets
(`_lpBucketCounts[i] += bucketCounts[i]` in `PointersToLinePoints`). -/
def lpBucketCountsAccum (marked : Nat → Bool)
    (tbl : List ((Nat → Nat) × List P3Entry)) (b : Nat) : Nat :=
  (tbl.map (fun bk =>
    (step1Bucket marked bk.1 bk.2).countP (fun e => lpBucketOf e.1 == b))).sum

/-- `entryOffset` of the `TableSecondStep` loop when bucket `b` is
processed: the driver accumulates `entryOffset += bucketLength` with
`bucketLength = _lpBucketCounts[bucket]`, so it is the sum of the
line-point bucket lengths of all earlier buckets. -/
def step2EntryOffset (marked : Nat → Bool)
    (tbl : List ((Nat → Nat) × List P3Entry)) (b : Nat) : Nat :=
  ((List.range b).map (lpBucketCountsAccum marked tbl)).sum

/-- The reverse-map records built by `WriteLPMapJob::Run` for sorted
line-point bucket `b`, in sorted-position order: for position `i`,
`map = ( entryOffset + i ) << 32` and the record is `map | key[i]`. -/
def lpMapRecordsBucket (marked : Nat → Bool)
    (tbl : List ((Nat → Nat) × List P3Entry)) (b : Nat) : List Nat :=
  (List.range (sortedLpBucket (step1Table marked tbl) b).length).map
    (fun i => ((step2EntryOffset marked tbl b + i) <<< 32) |||
      ((sortedLpBucket (step1Table marked tbl) b).getD i (0, 0)).2)

/-- All reverse-map records of one r-table, in construction order (one
`WriteLPReverseLookup` call per line-point bucket). -/
def step2AllRecords (marked : Nat → Bool)
    (tbl : List ((Nat → Nat) × List P3Entry)) : List Nat :=
  ((List.range BB_DPP3_LP_BUCKET_COUNT).map (lpMapRecordsBucket marked tbl)).flatten

/-- The reverse-map bucket of a key: `key >> ( 32 - kExtraBits )`. -/
def lMapBucketOf (key : Nat) : Nat := key >>> (32 - kExtraBits)

/-- The globally sorted line points of one r-table: the sorted line-point
buckets emitted by Step 2, concatenated in bucket order. -/
def sortedLinePointsAll (marked : Nat → Bool)
    (tbl : List ((Nat → Nat) × List P3Entry)) : List Nat :=
  ((List.range BB_DPP3_LP_BUCKET_COUNT).map
    (fun b => (sortedLpBucket (step1Table marked tbl) b).map Prod.fst)).flatten

/-! ### The threaded `WriteLPMapJob` (lines 830-885)

`entriesPerThread = entryCount / threadCount`, adjusted for the last
thread (lines 834-839).  Note the asymmetry in the source: the count pass
(line 852) iterates `key = inKey .. inKey + entriesPerThread` over the
*member* `inKey` — the shared base of the sorted key buffer — while the
write pass (line 863) uses `this->inKey + offset`, the thread's own slice.
The embedding keeps this faithfully: for `threadCount > 1` the per-thread
counts describe the window `[0, entriesPerThread)` instead of the thread's
slice, so the prefix-sum slot budgets can disagree with the keys actually
written. -/

/-- `offset = entriesPerThread * jobId` of `WriteLPMapJob::Run` (computed
before the last-thread adjustment). -/
def writeLPMapJobOffset (n t id : Nat) : Nat := n / t * id

/-- The adjusted `entriesPerThread` of thread `id`
(`entriesPerThread += entryCount - entriesPerThread * threadCount` for the
last thread). -/
def writeLPMapJobCount (n t id : Nat) : Nat :=
  if id + 1 = t then n - n / t * id else n / t

/-- The per-bucket `counts[c]` of thread `id`'s count pass (line 852): it
scans `inKey[0 .. entriesPerThread)` — the shared buffer base, not the
thread's own slice. -/
def writeLPMapJobCounts (keys : List Nat) (t id c : Nat) : Nat :=
  (keys.take (writeLPMapJobCount keys.length t id)).countP
    (fun k => lMapBucketOf k == c)

/-- The per-bucket totals that `CalculatePrefixSum` stores into
`this->bucketCounts` (accumulated into `_lMapBucketCounts` by
`WriteLPReverseLookup`): the per-thread counts summed across threads. -/
def writeLPMapBucketCounts (keys : List Nat) (t c : Nat) : Nat :=
  ((List.range t).map (fun id => writeLPMapJobCounts keys t id c)).sum

/-- Modelled from the spec: `CalculatePrefixSum` (`PrefixSumJob`, outside
the provided sources); spec section 4.6: thread `id`'s end offset in bucket
`c` is the inclusive cross-thread prefix of the counts, with the output
buffer laid out bucket-major (earlier buckets' totals first). -/
def writeLPMapJobPfxSum (keys : List Nat) (t id c : Nat) : Nat :=
  ((List.range c).map (fun j => writeLPMapBucketCounts keys t j)).sum +
    ((List.range (id + 1)).map (fun j => writeLPMapJobCounts keys t j c)).sum

/-- The keys thread `id`'s write pass actually scans:
`inKey = this->inKey + offset` over `entriesPerThread` entries
(lines 863-869). -/
def writeLPMapJobSliceKeys (keys : List Nat) (t id : Nat) : List Nat :=
  (keys.drop (writeLPMapJobOffset keys.length t id)).take
    (writeLPMapJobCount keys.length t id)

/-- The record value constructed by thread `id` at local index `i` of its
write slice: `entryOffset = this->entryOffset + offset` (line 861),
`map = ( entryOffset + i ) << 32` and `map | inKey[i]` (lines 874-880). -/
def writeLPMapJobRecord (keys : List Nat) (eo t id i : Nat) : Nat :=
  ((eo + writeLPMapJobOffset keys.length t id + i) <<< 32) |||
    (writeLPMapJobSliceKeys keys t id).getD i 0

/-- `_lMapBucketCounts[c]` after Step 2: the `bucketCounts` published by
the `WriteLPMapJob` of each line-point bucket (the buggy shared-window
counts of line 852, summed across the `threadCount` threads), accumulated
over the 256 line-point buckets. -/
def lMapBucketCountsAccum (marked : Nat → Bool)
    (tbl : List ((Nat → Nat) × List P3Entry)) (t c : Nat) : Nat :=
  ((List.range BB_DPP3_LP_BUCKET_COUNT).map
    (fun b => writeLPMapBucketCounts
      ((sortedLpBucket (step1Table marked tbl) b).map Prod.snd) t c)).sum

/-! ### Generic counting and indexing lemmas for the bucket scatter -/

lemma sum_map_add {α : Type} (l : List α) (f g : α → Nat) :
    (l.map (fun x => f x + g x)).sum = (l.map f).sum + (l.map g).sum := by
  induction l with
  | nil => simp
  | cons a t ih =>
    simp only [List.map_cons, List.sum_cons, ih]
    omega

lemma sum_map_indicator (B k c : Nat) (hk : k < B) :
    ((List.range B).map (fun b => if k == b then c else 0)).sum = c := by
  induction B with
  | zero => omega
  | succ n ih =>
    rw [List.range_succ, List.map_append, List.sum_append]
    by_cases h : k < n
    · rw [ih h]
      have hne : k ≠ n := by omega
      simp [hne]
    · have hkn : k = n := by omega
      subst hkn
      have hzero : ((List.range k).map (fun b => if k == b then c else 0)).sum = 0 := by
        apply List.sum_eq_zero
        intro x hx
        rcases List.mem_map.1 hx with ⟨b, hb, rfl⟩
        have hlt : b < k := List.mem_range.1 hb
        have hne : k ≠ b := by omega
        simp [hne]
      rw [hzero]
      simp

lemma sum_countP_filter {α : Type} (l : List α) (f : α → Nat) (B : Nat)
    (p : α → Bool) (hB : ∀ a ∈ l, f a < B) :
    ((List.range B).map (fun b => (l.filter (fun x => f x == b)).countP p)).sum =
      l.countP p := by
  induction l with
  | nil => simp
  | cons a t ih =>
    have hat : ∀ x ∈ t, f x < B := fun x hx => hB x (List.mem_cons_of_mem _ hx)
    have hterm : ((List.range B).map
        (fun b => ((a :: t).filter (fun x => f x == b)).countP p)) =
        ((List.range B).map (fun b =>
          (t.filter (fun x => f x == b)).countP p +
            (if f a == b then (if p a then 1 else 0) else 0))) := by
      apply List.map_congr_left
      intro b hb
      rw [List.filter_cons]
      by_cases h : (f a == b) = true
      · simp [h]
        rw [List.countP_cons]
      · simp [h]
    rw [hterm, sum_map_add, ih hat, sum_map_indicator B (f a) _
      (hB a (List.mem_cons_self _ _)), List.countP_cons]

lemma countP_bucketed {α : Type} (l : List α) (f : α → Nat) (B : Nat)
    (p : α → Bool) (hB : ∀ a ∈ l, f a < B) :
    (((List.range B).map (fun b => (l.filter (fun x => f x == b)).reverse)).flatten).countP p
      = l.countP p := by
  rw [List.countP_flatten, List.map_map]
  have hcong : ((List.countP p) ∘ (fun b => (l.filter (fun x => f x == b)).reverse)) =
      fun b => (l.filter (fun x => f x == b)).countP p := by
    funext b
    simp
  rw [hcong, sum_countP_filter l f B p hB]

lemma flatten_get?_block {α : Type} (L : List (List α)) (b i : Nat)
    (hb : b < L.length) (hi : i < (L.getD b []).length) :
    L.flatten.get? ((((List.range b).map (fun j => (L.getD j []).length)).sum) + i) =
      (L.getD b []).get? i := by
  induction L generalizing b with
  | nil => simp at hb
  | cons x rest ih =>
    cases b with
    | zero =>
      simp only [List.range_zero, List.map_nil, List.sum_nil, Nat.zero_add]
      rw [List.flatten_cons, List.get?_append]
      · rfl
      · simpa using hi
    | succ n =>
      have hsum : ((List.range (n + 1)).map
          (fun j => ((x :: rest).getD j []).length)).sum =
          x.length + ((List.range n).map (fun j => (rest.getD j []).length)).sum := by
        rw [List.range_succ_eq_map, List.map_cons, List.sum_cons, List.map_map]
        rfl
      rw [hsum, List.flatten_cons]
      have hidx : x.length + ((List.range n).map
          (fun j => (rest.getD j []).length)).sum + i =
          x.length + (((List.range n).map (fun j => (rest.getD j []).length)).sum + i) := by
        omega
      rw [hidx, List.get?_append_right (by omega)]
      have hcancel : x.length + (((List.range n).map
          (fun j => (rest.getD j []).length)).sum + i) - x.length =
          ((List.range n).map (fun j => (rest.getD j []).length)).sum + i := by
        omega
      rw [hcancel]
      exact ih n (by simpa using hb) (by simpa using hi)

/-! ### C8: bucket-sum conservation -/

lemma sum_map_swap (f : Nat → Nat → Nat) (m n : Nat) :
    ((List.range m).map (fun c => ((List.range n).map (fun b => f b c)).sum)).sum =
      ((List.range n).map (fun b => ((List.range m).map (fun c => f b c)).sum)).sum := by
  induction m with
  | zero =>
    simp
  | succ k ih =>
    have hsplit : ((List.range n).map
        (fun b => ((List.range (k + 1)).map (fun c => f b c)).sum)) =
        ((List.range n).map
          (fun b => ((List.range k).map (fun c => f b c)).sum + f b k)) := by
      apply List.map_congr_left
      intro b hb
      rw [List.range_succ, List.map_append, List.sum_append]
      simp
    rw [hsplit, sum_map_add, ← ih]
    rw [List.range_succ, List.map_append, List.sum_append]
    simp

lemma sum_countP_eq_length {α : Type} (l : List α) (f : α → Nat) (B : Nat)
    (hB : ∀ a ∈ l, f a < B) :
    ((List.range B).map (fun c => l.countP (fun k => f k == c))).sum = l.length := by
  have h := sum_countP_filter l f B (fun _ => true) hB
  have hc : ((List.range B).map
      (fun b => (l.filter (fun x => f x == b)).countP (fun _ => true))) =
      ((List.range B).map (fun c => l.countP (fun k => f k == c))) := by
    apply List.map_congr_left
    intro c hmem
    rw [List.countP_true, ← List.countP_eq_length_filter]
  rw [hc] at h
  rw [h, List.countP_true]

lemma lpBucketCountsAccum_eq (marked : Nat → Bool)
    (tbl : List ((Nat → Nat) × List P3Entry)) (b : Nat) :
    lpBucketCountsAccum marked tbl b = (lpBucket (step1Table marked tbl) b).length := by
  unfold lpBucketCountsAccum lpBucket step1Table
  rw [List.length_reverse, ← List.countP_eq_length_filter, List.countP_flatten,
    List.map_map]
  rfl

lemma squareToLinePoint_lt (x y : Nat) (hx : x < 2 ^ 32) (hy : y < 2 ^ 32) :
    SquareToLinePoint x y < 2 ^ 64 := by
  unfold SquareToLinePoint
  have hb : ∀ a b : Nat, a < 2 ^ 32 → b < 2 ^ 32 → a * (a - 1) / 2 + b < 2 ^ 64 := by
    intro a b ha hb
    have h1 : a * (a - 1) ≤ (2 ^ 32 - 1) * (2 ^ 32 - 1) :=
      Nat.mul_le_mul (by omega) (by omega)
    have h2 : a * (a - 1) / 2 ≤ (2 ^ 32 - 1) * (2 ^ 32 - 1) / 2 :=
      Nat.div_le_div_right h1
    have h3 : (2 ^ 32 - 1) * (2 ^ 32 - 1) / 2 + 2 ^ 32 < 2 ^ 64 := by norm_num
    omega
  split
  · exact hb x y hx hy
  · exact hb y x hy hx

lemma mem_step1Table (marked : Nat → Bool)
    (tbl : List ((Nat → Nat) × List P3Entry)) (e : Nat × Nat)
    (he : e ∈ step1Table marked tbl) :
    ∃ bk ∈ tbl, ∃ e' ∈ bk.2, marked e'.mapIdx = true ∧
      e = (entryLinePoint bk.1 e', e'.mapIdx) := by
  unfold step1Table at he
  rcases List.mem_flatten.1 he with ⟨lb, hlb, hel⟩
  rcases List.mem_map.1 hlb with ⟨bk, hbk, rfl⟩
  unfold step1Bucket pruneBucket at hel
  rcases List.mem_map.1 hel with ⟨e', he', rfl⟩
  rcases List.mem_filter.1 he' with ⟨hmem, hmark⟩
  exact ⟨bk, hbk, e', hmem, hmark, rfl⟩

lemma step1Table_lp_lt (marked : Nat → Bool)
    (tbl : List ((Nat → Nat) × List P3Entry))
    (hl : ∀ bk ∈ tbl, ∀ n, bk.1 n < 2 ^ 32) :
    ∀ e ∈ step1Table marked tbl, e.1 < 2 ^ 64 := by
  intro e he
  rcases mem_step1Table marked tbl e he with ⟨bk, hbk, e', _, _, rfl⟩
  exact squareToLinePoint_lt _ _ (hl bk hbk _) (hl bk hbk _)

lemma step1Table_key_lt (marked : Nat → Bool)
    (tbl : List ((Nat → Nat) × List P3Entry))
    (hk : ∀ bk ∈ tbl, ∀ e ∈ bk.2, e.mapIdx < 2 ^ 32) :
    ∀ e ∈ step1Table marked tbl, e.2 < 2 ^ 32 := by
  intro e he
  rcases mem_step1Table marked tbl e he with ⟨bk, hbk, e', he', _, rfl⟩
  exact hk bk hbk e' he'

lemma lpBucketOf_lt (lp : Nat) (h : lp < 2 ^ 64) :
    lpBucketOf lp < BB_DPP3_LP_BUCKET_COUNT := by
  unfold lpBucketOf BB_DPP3_LP_BUCKET_COUNT
  rw [Nat.shiftRight_eq_div_pow]
  have : lp / 2 ^ 56 < 2 ^ 64 / 2 ^ 56 ∨ lp / 2 ^ 56 < 256 := by
    right
    apply Nat.div_lt_of_lt_mul
    calc lp < 2 ^ 64 := h
      _ = 2 ^ 56 * 256 := by norm_num
  rcases this with h1 | h1
  · have : (2 : Nat) ^ 64 / 2 ^ 56 = 256 := by norm_num
    omega
  · exact h1

lemma lMapBucketOf_lt (k : Nat) (h : k < 2 ^ 32) :
    lMapBucketOf k < BB_DP_BUCKET_COUNT := by
  have hB : BB_DP_BUCKET_COUNT = 64 := by decide
  rw [hB]
  unfold lMapBucketOf kExtraBits
  rw [show (32 - 6 : Nat) = 26 from rfl, Nat.shiftRight_eq_div_pow]
  apply Nat.div_lt_of_lt_mul
  calc k < 2 ^ 32 := h
    _ = 2 ^ 26 * 64 := by norm_num

lemma mem_sortedLpBucket (lps : List (Nat × Nat)) (b : Nat) (e : Nat × Nat)
    (he : e ∈ sortedLpBucket lps b) : e ∈ lps := by
  unfold sortedLpBucket at he
  have hmem : e ∈ lpBucket lps b := List.mem_mergeSort.1 he
  unfold lpBucket at hmem
  exact (List.mem_filter.1 (List.mem_reverse.1 hmem)).1

lemma writeLPMapJobCount_le (n t id : Nat) : writeLPMapJobCount n t id ≤ n := by
  unfold writeLPMapJobCount
  split
  · omega
  · exact Nat.div_le_self n t

lemma sum_writeLPMapJobCount (n t : Nat) (ht : 0 < t) :
    ((List.range t).map (writeLPMapJobCount n t)).sum = n := by
  obtain ⟨s, rfl⟩ : ∃ s, t = s + 1 := ⟨t - 1, by omega⟩
  rw [List.range_succ, List.map_append, List.sum_append]
  have hfirst : (List.range s).map (writeLPMapJobCount n (s + 1)) =
      (List.range s).map (fun _ => n / (s + 1)) := by
    apply List.map_congr_left
    intro id hid
    have hid' := List.mem_range.1 hid
    unfold writeLPMapJobCount
    rw [if_neg (by omega)]
  rw [hfirst, List.map_const', List.sum_replicate, smul_eq_mul, List.length_range]
  have hlast : writeLPMapJobCount n (s + 1) s = n - n / (s + 1) * s := by
    unfold writeLPMapJobCount
    rw [if_pos rfl]
  simp only [List.map_cons, List.map_nil, List.sum_cons, List.sum_nil, hlast]
  have h1 : n / (s + 1) * (s + 1) ≤ n := Nat.div_mul_le_self n (s + 1)
  have h2 : n / (s + 1) * s ≤ n / (s + 1) * (s + 1) :=
    Nat.mul_le_mul_left _ (by omega)
  have hc : s * (n / (s + 1)) = n / (s + 1) * s := Nat.mul_comm _ _
  omega

/-- C8: after Step 1 the accumulated per-line-point-bucket counts over the
256 buckets sum to the table's pruned entry count (the length of the Step 1
output), and after Step 2 the accumulated per-reverse-map-bucket counts
(the `WriteLPMapJob` counts, which scan the shared window of line 852) over
the `BB_DP_BUCKET_COUNT` buckets sum to that same pruned count: each thread
counts exactly its `entriesPerThread` keys, so the per-bucket values can be
wrong for `threadCount > 1` but their total per line-point bucket is still
the bucket's length. -/
theorem c8_bucket_sum_conservation (marked : Nat → Bool)
    (tbl : List ((Nat → Nat) × List P3Entry)) (t : Nat) (ht : 0 < t)
    (hl : ∀ bk ∈ tbl, ∀ n, bk.1 n < 2 ^ 32)
    (hk : ∀ bk ∈ tbl, ∀ e ∈ bk.2, e.mapIdx < 2 ^ 32) :
    ((List.range BB_DPP3_LP_BUCKET_COUNT).map (lpBucketCountsAccum marked tbl)).sum =
      (step1Table marked tbl).length ∧
    ((List.range BB_DP_BUCKET_COUNT).map (lMapBucketCountsAccum marked tbl t)).sum =
      (step1Table marked tbl).length := by
  have hlp : ∀ e ∈ step1Table marked tbl, lpBucketOf e.1 < BB_DPP3_LP_BUCKET_COUNT :=
    fun e he => lpBucketOf_lt _ (step1Table_lp_lt marked tbl hl e he)
  have hlens : ((List.range BB_DPP3_LP_BUCKET_COUNT).map (lpBucketCountsAccum marked tbl)) =
      ((List.range BB_DPP3_LP_BUCKET_COUNT).map
        (fun b => (step1Table marked tbl).countP (fun e => lpBucketOf e.1 == b))) := by
    apply List.map_congr_left
    intro b hb
    rw [lpBucketCountsAccum_eq]
    unfold lpBucket
    rw [List.length_reverse, ← List.countP_eq_length_filter]
  constructor
  · rw [hlens, sum_countP_eq_length _ _ _ hlp]
  · unfold lMapBucketCountsAccum
    rw [sum_map_swap (fun b c => writeLPMapBucketCounts
        ((sortedLpBucket (step1Table marked tbl) b).map Prod.snd) t c)
      BB_DP_BUCKET_COUNT BB_DPP3_LP_BUCKET_COUNT]
    have hinner : ((List.range BB_DPP3_LP_BUCKET_COUNT).map
        (fun b => ((List.range BB_DP_BUCKET_COUNT).map
          (fun c => writeLPMapBucketCounts
            ((sortedLpBucket (step1Table marked tbl) b).map Prod.snd) t c)).sum)) =
        ((List.range BB_DPP3_LP_BUCKET_COUNT).map
          (fun b => (step1Table marked tbl).countP (fun e => lpBucketOf e.1 == b))) := by
      apply List.map_congr_left
      intro b hb
      have hswap := sum_map_swap
        (fun id c => writeLPMapJobCounts
          ((sortedLpBucket (step1Table marked tbl) b).map Prod.snd) t id c)
        BB_DP_BUCKET_COUNT t
      rw [show ((List.range BB_DP_BUCKET_COUNT).map
          (fun c => writeLPMapBucketCounts
            ((sortedLpBucket (step1Table marked tbl) b).map Prod.snd) t c)).sum =
          ((List.range BB_DP_BUCKET_COUNT).map
            (fun c => ((List.range t).map
              (fun id => writeLPMapJobCounts
                ((sortedLpBucket (step1Table marked tbl) b).map Prod.snd) t id c)).sum)).sum
        from rfl]
      rw [hswap]
      have hid : ((List.range t).map
          (fun id => ((List.range BB_DP_BUCKET_COUNT).map
            (fun c => writeLPMapJobCounts
              ((sortedLpBucket (step1Table marked tbl) b).map Prod.snd) t id c)).sum)) =
          ((List.range t).map (writeLPMapJobCount
            ((sortedLpBucket (step1Table marked tbl) b).map Prod.snd).length t)) := by
        apply List.map_congr_left
        intro id hidm
        have hkb : ∀ k ∈ ((sortedLpBucket (step1Table marked tbl) b).map Prod.snd).take
            (writeLPMapJobCount
              ((sortedLpBucket (step1Table marked tbl) b).map Prod.snd).length t id),
            lMapBucketOf k < BB_DP_BUCKET_COUNT := by
          intro k hkm
          have hk' := List.mem_of_mem_take hkm
          rcases List.mem_map.1 hk' with ⟨e, he, rfl⟩
          exact lMapBucketOf_lt _ (step1Table_key_lt marked tbl hk e
            (mem_sortedLpBucket _ _ _ he))
        have h1 : ((List.range BB_DP_BUCKET_COUNT).map
            (fun c => writeLPMapJobCounts
              ((sortedLpBucket (step1Table marked tbl) b).map Prod.snd) t id c)).sum =
            (((sortedLpBucket (step1Table marked tbl) b).map Prod.snd).take
              (writeLPMapJobCount
                ((sortedLpBucket (step1Table marked tbl) b).map Prod.snd).length t id)).length :=
          sum_countP_eq_length _ _ _ hkb
        rw [h1, List.length_take]
        exact Nat.min_eq_left (writeLPMapJobCount_le _ _ _)
      rw [hid, sum_writeLPMapJobCount _ _ ht, List.length_map]
      unfold sortedLpBucket
      rw [List.length_mergeSort]
      unfold lpBucket
      rw [List.length_reverse, ← List.countP_eq_length_filter]
    rw [hinner, sum_countP_eq_length _ _ _ hlp]

/-- Witness for C8 at a concrete single-bucket table with two threads. -/
theorem c8_bucket_sum_conservation_witness :
    (0 : Nat) < 2 ∧
    ((List.range BB_DPP3_LP_BUCKET_COUNT).map
      (lpBucketCountsAccum (fun _ => true)
        [(fun _ => 0, [P3Entry.mk 0 1 5])])).sum =
      (step1Table (fun _ => true) [(fun _ => 0, [P3Entry.mk 0 1 5])]).length ∧
    ((List.range BB_DP_BUCKET_COUNT).map
      (lMapBucketCountsAccum (fun _ => true)
        [(fun _ => 0, [P3Entry.mk 0 1 5])] 2)).sum =
      (step1Table (fun _ => true) [(fun _ => 0, [P3Entry.mk 0 1 5])]).length := by
  have ht : (0 : Nat) < 2 := by decide
  have hl : ∀ bk ∈ ([((fun _ => 0 : Nat → Nat), [P3Entry.mk 0 1 5])] :
      List ((Nat → Nat) × List P3Entry)), ∀ n : Nat, bk.1 n < 2 ^ 32 := by
    intro bk hbk n
    have hbk' : bk = ((fun _ => 0 : Nat → Nat), [P3Entry.mk 0 1 5]) := by
      simpa using hbk
    rw [hbk']
    norm_num
  have hk : ∀ bk ∈ ([((fun _ => 0 : Nat → Nat), [P3Entry.mk 0 1 5])] :
      List ((Nat → Nat) × List P3Entry)), ∀ e ∈ bk.2, e.mapIdx < 2 ^ 32 := by
    intro bk hbk e he
    have hbk' : bk = ((fun _ => 0 : Nat → Nat), [P3Entry.mk 0 1 5]) := by
      simpa using hbk
    subst hbk'
    have he' : e = P3Entry.mk 0 1 5 := by simpa using he
    rw [he']
    norm_num
  have h := c8_bucket_sum_conservation (fun _ => true)
    [((fun _ => 0 : Nat → Nat), [P3Entry.mk 0 1 5])] 2 ht hl hk
  exact ⟨ht, h.1, h.2⟩

/-! ### C4: reverse-map record construction -/

lemma writeLPMapJobSliceKeys_getD (keys : List Nat) (t id i : Nat)
    (hi : i < writeLPMapJobCount keys.length t id) :
    (writeLPMapJobSliceKeys keys t id).getD i 0 =
      keys.getD (writeLPMapJobOffset keys.length t id + i) 0 := by
  unfold writeLPMapJobSliceKeys
  rw [List.getD_eq_getElem?_getD, List.getD_eq_getElem?_getD,
    List.getElem?_take_of_lt hi, List.getElem?_drop]

/-- C4 counterexample.  First, the claim's bucket count is wrong:
`WriteLPMapJob` scatters into `BB_DP_BUCKET_COUNT = 1 << kExtraBits = 64`
buckets (spec section 6), not 128.  Second, records are not in general
stored in the bucket selected by `key >> (32 - kExtraBits)`: with
`threadCount = 2` and sorted keys `[2^26, 0]`, both threads' count passes
scan the shared window `inKey[0..1)` (line 852) and count only the key
`2^26` (bucket 1), so bucket 0 is given no slot (`bucketCounts[0] = 0`)
even though the key distribution has one bucket-0 key; thread 1's write
slice is `[0]` (bucket 0) while its prefix-sum budget for bucket 0 is 0,
so `--pfxSum[0]` wraps to `2^32 - 1`, violating the debug
`ASSERT( writeIdx < entryCount )` (line 872): the record for key 0 is
written out of bounds instead of into reverse-map bucket 0. -/
theorem c4_scatter_counterexample :
    (BB_DP_BUCKET_COUNT = 64 ∧ BB_DP_BUCKET_COUNT ≠ 128) ∧
    writeLPMapJobSliceKeys [2 ^ 26, 0] 2 1 = [0] ∧
    lMapBucketOf 0 = 0 ∧
    writeLPMapJobCounts [2 ^ 26, 0] 2 1 0 = 0 ∧
    writeLPMapBucketCounts [2 ^ 26, 0] 2 0 = 0 ∧
    (([2 ^ 26, (0 : Nat)]).countP (fun k => lMapBucketOf k == 0)) = 1 ∧
    writeLPMapJobPfxSum [2 ^ 26, 0] 2 1 0 = 0 ∧
    ¬ (u32sub (writeLPMapJobPfxSum [2 ^ 26, 0] 2 1 0) 1 < 2) := by
  refine ⟨⟨by decide, by decide⟩, by decide, by decide, by decide, by decide,
    by decide, by decide, by decide⟩

/-- C4 (amended): in Step 2, each `WriteLPMapJob` thread constructs, for
the global position `offset + j` of its write slice, the reverse-map record
`((globalEntryOffset + offset + j) << 32) | key[offset + j]`, where
`globalEntryOffset` is the sum of the bucket lengths of all earlier
line-point buckets; the scatter computes the target bucket of a record as
`key >> (32 - kExtraBits)`, ranging over
`BB_DP_BUCKET_COUNT = 2 ^ kExtraBits = 64` (not 128) reverse-map buckets.
Delivery into the computed bucket is not guaranteed when
`threadCount > 1`, because the count pass of line 852 scans the shared
window `inKey[0 .. entriesPerThread)` instead of the thread's own slice
(see the counterexample). -/
theorem c4_reverse_map_record_form (marked : Nat → Bool)
    (tbl : List ((Nat → Nat) × List P3Entry)) (b i t : Nat)
    (hi : i < (sortedLpBucket (step1Table marked tbl) b).length) :
    (lpMapRecordsBucket marked tbl b).get? i =
      some (((step2EntryOffset marked tbl b + i) <<< 32) |||
        ((sortedLpBucket (step1Table marked tbl) b).getD i (0, 0)).2) ∧
    step2EntryOffset marked tbl b =
      ((List.range b).map
        (fun j => (lpBucket (step1Table marked tbl) j).length)).sum ∧
    BB_DP_BUCKET_COUNT = 2 ^ kExtraBits ∧
    (∀ k : Nat, k < 2 ^ 32 → lMapBucketOf k < BB_DP_BUCKET_COUNT) ∧
    (∀ id j, id < t →
      j < writeLPMapJobCount
        ((sortedLpBucket (step1Table marked tbl) b).map Prod.snd).length t id →
      writeLPMapJobRecord ((sortedLpBucket (step1Table marked tbl) b).map Prod.snd)
          (step2EntryOffset marked tbl b) t id j =
        ((step2EntryOffset marked tbl b +
            writeLPMapJobOffset
              ((sortedLpBucket (step1Table marked tbl) b).map Prod.snd).length t id +
            j) <<< 32) |||
          ((sortedLpBucket (step1Table marked tbl) b).map Prod.snd).getD
            (writeLPMapJobOffset
              ((sortedLpBucket (step1Table marked tbl) b).map Prod.snd).length t id +
              j) 0) := by
  refine ⟨?_, ?_, by decide, fun k hk => lMapBucketOf_lt k hk, ?_⟩
  · unfold lpMapRecordsBucket
    rw [List.get?_map, List.get?_range hi]
    rfl
  · unfold step2EntryOffset
    congr 1
    apply List.map_congr_left
    intro j hj
    exact lpBucketCountsAccum_eq marked tbl j
  · intro id j hid hj
    unfold writeLPMapJobRecord
    rw [writeLPMapJobSliceKeys_getD _ _ _ _ hj]

/-- Witness for C4 at a concrete table, bucket 0, position 0, two
threads. -/
theorem c4_reverse_map_record_form_witness :
    0 < (sortedLpBucket
      (step1Table (fun _ => true) [(fun _ => 0, [P3Entry.mk 0 1 5])]) 0).length ∧
    (lpMapRecordsBucket (fun _ => true) [(fun _ => 0, [P3Entry.mk 0 1 5])] 0).get? 0 =
      some (((step2EntryOffset (fun _ => true)
          [(fun _ => 0, [P3Entry.mk 0 1 5])] 0 + 0) <<< 32) |||
        ((sortedLpBucket
          (step1Table (fun _ => true) [(fun _ => 0, [P3Entry.mk 0 1 5])]) 0).getD 0
            (0, 0)).2) := by
  have hi : 0 < (sortedLpBucket
      (step1Table (fun _ => true) [(fun _ => 0, [P3Entry.mk 0 1 5])]) 0).length := by
    unfold sortedLpBucket
    rw [List.length_mergeSort]
    decide
  exact ⟨hi, (c4_reverse_map_record_form (fun _ => true)
    [(fun _ => 0, [P3Entry.mk 0 1 5])] 0 0 2 hi).1⟩

/-! ## C5: the Step 1 l-buffer pipeline (`TableFirstStep`) -/

/-- The l-buffer offset at which the l-table read of a bucket deposits its
data: the first bucket is read into `_lMap[0]` directly (offset 0, line
298), every later bucket into `_lMap[1] + P3_EXTRA_L_ENTRIES_TO_LOAD`
(line 336). -/
def lReadOffset (bucket : Nat) : Nat :=
  if bucket = 0 then 0 else P3_EXTRA_L_ENTRIES_TO_LOAD

/-- `lEntriesLoaded` after the l-table read for bucket `b` has been issued:
the first read loads `bucketCounts[lTable][0] + P3_EXTRA_L_ENTRIES_TO_LOAD`
entries, the read for the last bucket loads
`entryCounts[lTable] - lEntriesLoaded` instead of the stored bucket count
(line 331), and every other read loads `bucketCounts[lTable][b]`. -/
def lEntriesLoadedAfter (counts : Nat → Nat) (total : Nat) : Nat → Nat
  | 0 => counts 0 + P3_EXTRA_L_ENTRIES_TO_LOAD
  | b + 1 =>
    lEntriesLoadedAfter counts total b +
      (if b + 1 = BB_DP_BUCKET_COUNT - 1 then
        total - lEntriesLoadedAfter counts total b
       else counts (b + 1))

/-- The length of the l-table read issued for bucket `b`. -/
def lReadLength (counts : Nat → Nat) (total : Nat) (b : Nat) : Nat :=
  if b = 0 then counts 0 + P3_EXTRA_L_ENTRIES_TO_LOAD
  else if b = BB_DP_BUCKET_COUNT - 1 then
    total - lEntriesLoadedAfter counts total (b - 1)
  else counts b

/-- The l-table file position of the read for bucket `b` (the reads are
sequential from the seeked start). -/
def lReadStart (counts : Nat → Nat) (total : Nat) (b : Nat) : Nat :=
  if b = 0 then 0 else lEntriesLoadedAfter counts total (b - 1)

/-- The l-buffer contents while bucket `b` is processed.  Bucket 0 holds
only its read data (deposited at offset 0); for bucket `b + 1`,
`memcpy( _lMap[1], _lMap[0] + bucketCounts[(int)lTable][bucket],
P3_EXTRA_L_ENTRIES_TO_LOAD * sizeof( uint32 ) )` (line 352) puts the carry
at the head and the read data follows at offset
`P3_EXTRA_L_ENTRIES_TO_LOAD`. -/
def lBuffer (lData counts : Nat → Nat) (total : Nat) : Nat → List Nat
  | 0 => (List.range' 0 (lReadLength counts total 0)).map lData
  | b + 1 =>
    (((lBuffer lData counts total b).drop (counts b)).take
        P3_EXTRA_L_ENTRIES_TO_LOAD) ++
      (List.range' (lReadStart counts total (b + 1))
        (lReadLength counts total (b + 1))).map lData

/-- The l-table position where bucket `b` starts. -/
def lBucketStart (counts : Nat → Nat) (b : Nat) : Nat :=
  ((List.range b).map counts).sum

/-- The l-window a bucket needs: its own entries plus
`P3_EXTRA_L_ENTRIES_TO_LOAD` lookahead entries (none for the last
bucket, which ends at the end of the table). -/
def lWindowLength (counts : Nat → Nat) (b : Nat) : Nat :=
  if b = BB_DP_BUCKET_COUNT - 1 then counts b
  else counts b + P3_EXTRA_L_ENTRIES_TO_LOAD

/-! ### C5 helper lemmas -/

lemma map_range'_append (f : Nat → Nat) (s m n : Nat) :
    (List.range' s m).map f ++ (List.range' (s + m) n).map f =
      (List.range' s (m + n)).map f := by
  rw [← List.map_append, List.range'_append_1, Nat.add_comm n m]

lemma lBucketStart_succ (counts : Nat → Nat) (k : Nat) :
    lBucketStart counts (k + 1) = lBucketStart counts k + counts k := by
  unfold lBucketStart
  rw [List.range_succ, List.map_append, List.sum_append]
  simp

lemma lEntriesLoadedAfter_eq (counts : Nat → Nat) (total : Nat) (b : Nat)
    (hb : b < BB_DP_BUCKET_COUNT - 1) :
    lEntriesLoadedAfter counts total b =
      lBucketStart counts (b + 1) + P3_EXTRA_L_ENTRIES_TO_LOAD := by
  have hB : BB_DP_BUCKET_COUNT = 64 := by decide
  induction b with
  | zero =>
    show counts 0 + P3_EXTRA_L_ENTRIES_TO_LOAD = _
    unfold lBucketStart
    simp [List.range_succ]
  | succ n ih =>
    show lEntriesLoadedAfter counts total n + _ = _
    rw [ih (by omega)]
    have hne : ¬ (n + 1 = BB_DP_BUCKET_COUNT - 1) := by omega
    rw [if_neg hne, lBucketStart_succ counts (n + 1)]
    omega

lemma lBuffer_eq (lData counts : Nat → Nat) (total : Nat)
    (htot : total = ((List.range BB_DP_BUCKET_COUNT).map counts).sum)
    (hE : P3_EXTRA_L_ENTRIES_TO_LOAD ≤ counts (BB_DP_BUCKET_COUNT - 1)) :
    ∀ b, b < BB_DP_BUCKET_COUNT →
      lBuffer lData counts total b =
        (List.range' (lBucketStart counts b) (lWindowLength counts b)).map lData := by
  have hB : BB_DP_BUCKET_COUNT = 64 := by decide
  have htot' : total = lBucketStart counts (BB_DP_BUCKET_COUNT - 1) +
      counts (BB_DP_BUCKET_COUNT - 1) := by
    rw [htot]
    have hs : BB_DP_BUCKET_COUNT = (BB_DP_BUCKET_COUNT - 1) + 1 := by omega
    calc ((List.range BB_DP_BUCKET_COUNT).map counts).sum
        = lBucketStart counts ((BB_DP_BUCKET_COUNT - 1) + 1) := by
          unfold lBucketStart
          rw [← hs]
      _ = lBucketStart counts (BB_DP_BUCKET_COUNT - 1) +
            counts (BB_DP_BUCKET_COUNT - 1) := lBucketStart_succ _ _
  intro b
  induction b with
  | zero =>
    intro _
    unfold lBuffer lReadLength lWindowLength lBucketStart
    rw [if_pos rfl, if_neg (by omega)]
    simp
  | succ n ih =>
    intro hb1
    have hbn : n < BB_DP_BUCKET_COUNT - 1 := by omega
    have ihb := ih (by omega)
    show (((lBuffer lData counts total n).drop (counts n)).take
        P3_EXTRA_L_ENTRIES_TO_LOAD) ++
      (List.range' (lReadStart counts total (n + 1))
        (lReadLength counts total (n + 1))).map lData = _
    rw [ihb]
    have hwn : lWindowLength counts n = counts n + P3_EXTRA_L_ENTRIES_TO_LOAD := by
      unfold lWindowLength
      rw [if_neg (by omega)]
    rw [hwn,
      ← map_range'_append lData (lBucketStart counts n) (counts n)
        P3_EXTRA_L_ENTRIES_TO_LOAD,
      List.drop_left' (by rw [List.length_map, List.length_range']),
      List.take_of_length_le (by rw [List.length_map, List.length_range']),
      (lBucketStart_succ counts n).symm]
    have hrs : lReadStart counts total (n + 1) =
        lBucketStart counts (n + 1) + P3_EXTRA_L_ENTRIES_TO_LOAD := by
      unfold lReadStart
      rw [if_neg (by omega)]
      simpa using lEntriesLoadedAfter_eq counts total n hbn
    by_cases hlast : n + 1 = BB_DP_BUCKET_COUNT - 1
    · have hrl : lReadLength counts total (n + 1) =
          counts (BB_DP_BUCKET_COUNT - 1) - P3_EXTRA_L_ENTRIES_TO_LOAD := by
        unfold lReadLength
        rw [if_neg (by omega), if_pos hlast,
          show n + 1 - 1 = n from rfl,
          lEntriesLoadedAfter_eq counts total n hbn, hlast]
        omega
      rw [hrl, hrs, map_range'_append]
      unfold lWindowLength
      rw [if_pos hlast, hlast]
      have harith : P3_EXTRA_L_ENTRIES_TO_LOAD +
          (counts (BB_DP_BUCKET_COUNT - 1) - P3_EXTRA_L_ENTRIES_TO_LOAD) =
          counts (BB_DP_BUCKET_COUNT - 1) := by omega
      rw [harith]
    · have hrl : lReadLength counts total (n + 1) = counts (n + 1) := by
        unfold lReadLength
        rw [if_neg (by omega), if_neg hlast]
      rw [hrl, hrs, map_range'_append]
      unfold lWindowLength
      rw [if_neg hlast, Nat.add_comm P3_EXTRA_L_ENTRIES_TO_LOAD (counts (n + 1))]

/-- C5 counterexample: the claim says the l-table read for every bucket
deposits its data at offset `P3_EXTRA_L_ENTRIES_TO_LOAD` of the l-buffer,
but the first bucket's read (line 298) deposits at offset 0 (it instead
loads `P3_EXTRA_L_ENTRIES_TO_LOAD` extra entries). -/
theorem c5_read_offset_counterexample :
    lReadOffset 0 = 0 ∧ lReadOffset 1 = P3_EXTRA_L_ENTRIES_TO_LOAD ∧
    ¬ lReadOffset 0 = P3_EXTRA_L_ENTRIES_TO_LOAD := by
  refine ⟨by decide, by decide, by decide⟩

/-- C5 (amended): before processing moves to bucket `b + 1`, the last
`P3_EXTRA_L_ENTRIES_TO_LOAD` l-values of the current l-buffer are copied to
the head of the next l-buffer; the l-table read for every bucket after the
first deposits at offset `P3_EXTRA_L_ENTRIES_TO_LOAD` (the first bucket's
read deposits at offset 0 and loads the extra entries itself), so that the
l-buffer of every bucket `b` holds the contiguous l-table window starting
at bucket `b`'s first entry and `left + right_offset` dereferences within
one contiguous array. -/
theorem c5_cross_bucket_carry (lData counts : Nat → Nat) (total : Nat)
    (htot : total = ((List.range BB_DP_BUCKET_COUNT).map counts).sum)
    (hE : P3_EXTRA_L_ENTRIES_TO_LOAD ≤ counts (BB_DP_BUCKET_COUNT - 1)) :
    (lReadOffset 0 = 0 ∧
      ∀ b, 0 < b → lReadOffset b = P3_EXTRA_L_ENTRIES_TO_LOAD) ∧
    (∀ b, b < BB_DP_BUCKET_COUNT →
      lBuffer lData counts total b =
        (List.range' (lBucketStart counts b) (lWindowLength counts b)).map lData) ∧
    (∀ b, b < BB_DP_BUCKET_COUNT - 1 →
      ((lBuffer lData counts total b).drop (counts b)).take
          P3_EXTRA_L_ENTRIES_TO_LOAD =
        (lBuffer lData counts total b).drop
          ((lBuffer lData counts total b).length - P3_EXTRA_L_ENTRIES_TO_LOAD)) ∧
    (∀ b, b < BB_DP_BUCKET_COUNT → ∀ i, i < lWindowLength counts b →
      (lBuffer lData counts total b).get? i =
        some (lData (lBucketStart counts b + i))) := by
  have hB : BB_DP_BUCKET_COUNT = 64 := by decide
  refine ⟨⟨rfl, ?_⟩, lBuffer_eq lData counts total htot hE, ?_, ?_⟩
  · intro b hbpos
    unfold lReadOffset
    rw [if_neg (by omega)]
  · intro b hb
    have hbuf := lBuffer_eq lData counts total htot hE b (by omega)
    have hwin : lWindowLength counts b = counts b + P3_EXTRA_L_ENTRIES_TO_LOAD := by
      unfold lWindowLength
      rw [if_neg (by omega)]
    have hlen : (lBuffer lData counts total b).length =
        counts b + P3_EXTRA_L_ENTRIES_TO_LOAD := by
      rw [hbuf, List.length_map, List.length_range', hwin]
    have harith : counts b + P3_EXTRA_L_ENTRIES_TO_LOAD -
        P3_EXTRA_L_ENTRIES_TO_LOAD = counts b := by omega
    rw [List.take_of_length_le (by rw [List.length_drop, hlen]; omega), hlen, harith]
  · intro b hb i hi
    rw [lBuffer_eq lData counts total htot hE b hb, List.get?_map,
      List.get?_range' _ _ hi]
    simp

/-- Witness for C5 at a concrete uniform bucket layout. -/
theorem c5_cross_bucket_carry_witness :
    ((65536 : Nat) = ((List.range BB_DP_BUCKET_COUNT).map
      (fun _ => (1024 : Nat))).sum) ∧
    (P3_EXTRA_L_ENTRIES_TO_LOAD ≤
      (fun _ => (1024 : Nat)) (BB_DP_BUCKET_COUNT - 1)) ∧
    (∀ b, b < BB_DP_BUCKET_COUNT →
      lBuffer (fun n => n) (fun _ => 1024) 65536 b =
        (List.range' (lBucketStart (fun _ => 1024) b)
          (lWindowLength (fun _ => 1024) b)).map (fun n => n)) := by
  have htot : (65536 : Nat) = ((List.range BB_DP_BUCKET_COUNT).map
      (fun _ => (1024 : Nat))).sum := by decide
  have hE : P3_EXTRA_L_ENTRIES_TO_LOAD ≤
      (fun _ => (1024 : Nat)) (BB_DP_BUCKET_COUNT - 1) := by decide
  exact ⟨htot, hE,
    (c5_cross_bucket_carry (fun n => n) (fun _ => 1024) 65536 htot hE).2.1⟩

/-! ### C3: round-trip support lemmas -/

lemma record_split (a k : Nat) (hk : k < 2 ^ 32) :
    (a <<< 32) ||| k = 2 ^ 32 * a + k := by
  rw [Nat.shiftLeft_eq, Nat.mul_comm a (2 ^ 32)]
  exact (Nat.mul_add_lt_is_or hk a).symm

lemma record_low32 (a k : Nat) (hk : k < 2 ^ 32) :
    u32cast ((a <<< 32) ||| k) = k := by
  unfold u32cast
  rw [record_split a k hk, Nat.mul_add_mod, Nat.mod_eq_of_lt hk]

lemma record_high32 (a k : Nat) (hk : k < 2 ^ 32) :
    ((a <<< 32) ||| k) >>> 32 = a := by
  rw [record_split a k hk, Nat.shiftRight_eq_div_pow,
    Nat.mul_add_div (by norm_num), Nat.div_eq_of_lt hk]
  omega

lemma getD_mem {α : Type} (l : List α) (i : Nat) (d : α) (h : i < l.length) :
    l.getD i d ∈ l := by
  rw [List.getD_eq_getElem?_getD, List.getElem?_eq_getElem h]
  exact List.getElem_mem h

lemma get?_eq_getD {α : Type} (l : List α) (i : Nat) (d : α) (h : i < l.length) :
    l.get? i = some (l.getD i d) := by
  rw [List.getD_eq_getElem?_getD, List.get?_eq_getElem?, List.getElem?_eq_getElem h]
  rfl

lemma getD_map_range {α : Type} (g : Nat → α) (n i : Nat) (d : α) (h : i < n) :
    ((List.range n).map g).getD i d = g i := by
  rw [List.getD_eq_getElem?_getD, List.getElem?_map, List.getElem?_range h]
  rfl

lemma countP_range_getD {α : Type} (l : List α) (d : α) (p : α → Bool) :
    (List.range l.length).countP (fun i => p (l.getD i d)) = l.countP p := by
  conv_rhs => rw [← range_map_getD l d]
  rw [List.countP_map]
  rfl

lemma two_le_countP_of_mem {α : Type} (l : List α) (p : α → Bool) (a b : α)
    (ha : a ∈ l) (hb : b ∈ l) (hne : a ≠ b)
    (hpa : p a = true) (hpb : p b = true) : 2 ≤ l.countP p := by
  rw [List.countP_eq_length_filter]
  have ha' : a ∈ l.filter p := List.mem_filter.2 ⟨ha, hpa⟩
  have hb' : b ∈ l.filter p := List.mem_filter.2 ⟨hb, hpb⟩
  rcases hfl : l.filter p with _ | ⟨x, t⟩
  · rw [hfl] at ha'
    cases ha'
  · rw [hfl] at ha' hb'
    rcases List.mem_cons.1 ha' with rfl | hat
    · rcases List.mem_cons.1 hb' with rfl | hbt
      · exact absurd rfl hne
      · have hne' : t ≠ [] := List.ne_nil_of_mem hbt
        have hpos : 0 < t.length := List.length_pos.2 hne'
        simp only [List.length_cons]
        omega
    · have hne' : t ≠ [] := List.ne_nil_of_mem hat
      have hpos : 0 < t.length := List.length_pos.2 hne'
      simp only [List.length_cons]
      omega

lemma map_mapIdx_filter (marked : Nat → Bool) (es : List P3Entry) :
    ((es.filter (fun e => marked e.mapIdx)).map P3Entry.mapIdx) =
      (es.map P3Entry.mapIdx).filter marked := by
  induction es with
  | nil => rfl
  | cons e t ih =>
    by_cases h : marked e.mapIdx = true
    · simp [List.filter_cons, h, ih]
    · simp [List.filter_cons, h, ih]

lemma step1Table_keys_eq (marked : Nat → Bool)
    (tbl : List ((Nat → Nat) × List P3Entry)) :
    (step1Table marked tbl).map Prod.snd =
      ((tbl.map (fun bk => bk.2.map P3Entry.mapIdx)).flatten).filter marked := by
  unfold step1Table step1Bucket pruneBucket
  rw [List.map_flatten, List.map_map, List.filter_flatten, List.map_map]
  congr 1
  apply List.map_congr_left
  intro bk hbk
  simp only [Function.comp]
  rw [List.map_map]
  have hcomp : (Prod.snd ∘ fun e => (entryLinePoint bk.1 e, e.mapIdx)) =
      P3Entry.mapIdx := by
    funext e
    rfl
  rw [hcomp, map_mapIdx_filter]

lemma step1Table_mem_of (marked : Nat → Bool)
    (tbl : List ((Nat → Nat) × List P3Entry))
    (bk : (Nat → Nat) × List P3Entry) (e : P3Entry) (hbk : bk ∈ tbl)
    (he : e ∈ bk.2) (hm : marked e.mapIdx = true) :
    (entryLinePoint bk.1 e, e.mapIdx) ∈ step1Table marked tbl := by
  unfold step1Table
  apply List.mem_flatten.2
  refine ⟨step1Bucket marked bk.1 bk.2, List.mem_map_of_mem _ hbk, ?_⟩
  unfold step1Bucket pruneBucket
  exact List.mem_map_of_mem _ (List.mem_filter.2 ⟨he, hm⟩)

lemma u32cast_lt (n : Nat) : u32cast n < 2 ^ 32 := by
  unfold u32cast
  exact Nat.mod_lt _ (by norm_num)

lemma countP_recordsBucket_key (marked : Nat → Bool)
    (tbl : List ((Nat → Nat) × List P3Entry)) (b key : Nat)
    (hk32 : ∀ e ∈ step1Table marked tbl, e.2 < 2 ^ 32) :
    (lpMapRecordsBucket marked tbl b).countP (fun r => u32cast r == key) =
      (sortedLpBucket (step1Table marked tbl) b).countP (fun x => x.2 == key) := by
  unfold lpMapRecordsBucket
  rw [List.countP_map]
  have hcong : ∀ i ∈ List.range (sortedLpBucket (step1Table marked tbl) b).length,
      (((fun r => u32cast r == key) ∘
        (fun i => ((step2EntryOffset marked tbl b + i) <<< 32) |||
          ((sortedLpBucket (step1Table marked tbl) b).getD i (0, 0)).2)) i ↔
      (fun i => (fun x => x.2 == key)
        ((sortedLpBucket (step1Table marked tbl) b).getD i (0, 0))) i) := by
    intro i hi
    have hi' := List.mem_range.1 hi
    have hmem := getD_mem (sortedLpBucket (step1Table marked tbl) b) i (0, 0) hi'
    have hklt : ((sortedLpBucket (step1Table marked tbl) b).getD i (0, 0)).2 < 2 ^ 32 :=
      hk32 _ (mem_sortedLpBucket _ _ _ hmem)
    simp only [Function.comp]
    rw [record_low32 _ _ hklt]
  rw [List.countP_congr hcong]
  exact countP_range_getD (sortedLpBucket (step1Table marked tbl) b) (0, 0)
    (fun x => x.2 == key)

lemma lMapRoute_lt (r : Nat) : lMapBucketOf (u32cast r) < BB_DP_BUCKET_COUNT :=
  lMapBucketOf_lt _ (u32cast_lt r)

lemma countP_step2AllRecords_key (marked : Nat → Bool)
    (tbl : List ((Nat → Nat) × List P3Entry)) (key : Nat)
    (hl : ∀ bk ∈ tbl, ∀ n, bk.1 n < 2 ^ 32)
    (hk32 : ∀ e ∈ step1Table marked tbl, e.2 < 2 ^ 32) :
    (step2AllRecords marked tbl).countP (fun r => u32cast r == key) =
      (step1Table marked tbl).countP (fun x => x.2 == key) := by
  unfold step2AllRecords
  rw [List.countP_flatten, List.map_map]
  have h1 : ((List.range BB_DPP3_LP_BUCKET_COUNT).map
      ((List.countP (fun r => u32cast r == key)) ∘ (lpMapRecordsBucket marked tbl))) =
      ((List.range BB_DPP3_LP_BUCKET_COUNT).map (fun b =>
        ((step1Table marked tbl).filter (fun x => lpBucketOf x.1 == b)).countP
          (fun x => x.2 == key))) := by
    apply List.map_congr_left
    intro b hb
    simp only [Function.comp]
    rw [countP_recordsBucket_key marked tbl b key hk32]
    unfold sortedLpBucket
    rw [(List.mergeSort_perm _ _).countP_eq]
    unfold lpBucket
    simp
  rw [h1]
  exact sum_countP_filter _ _ _ _ (fun x hx =>
    lpBucketOf_lt _ (step1Table_lp_lt marked tbl hl x hx))

lemma countP_step1_key_eq_one (marked : Nat → Bool)
    (tbl : List ((Nat → Nat) × List P3Entry))
    (hnodup : ((tbl.map (fun bk => bk.2.map P3Entry.mapIdx)).flatten).Nodup)
    (key : Nat) (hmem : key ∈ (step1Table marked tbl).map Prod.snd) :
    (step1Table marked tbl).countP (fun x => x.2 == key) = 1 := by
  have h1 : (step1Table marked tbl).countP (fun x => x.2 == key) =
      ((step1Table marked tbl).map Prod.snd).countP (fun k => k == key) := by
    rw [List.countP_map]
    rfl
  have hnd : ((step1Table marked tbl).map Prod.snd).Nodup := by
    rw [step1Table_keys_eq]
    exact hnodup.filter _
  rw [h1, ← List.count_eq_countP]
  exact List.count_eq_one_of_mem hnd hmem

lemma sortedLinePointsAll_get (marked : Nat → Bool)
    (tbl : List ((Nat → Nat) × List P3Entry)) (b i : Nat)
    (hb : b < BB_DPP3_LP_BUCKET_COUNT)
    (hi : i < (sortedLpBucket (step1Table marked tbl) b).length) :
    (sortedLinePointsAll marked tbl).get? (step2EntryOffset marked tbl b + i) =
      some ((sortedLpBucket (step1Table marked tbl) b).getD i (0, 0)).1 := by
  unfold sortedLinePointsAll
  set L := (List.range BB_DPP3_LP_BUCKET_COUNT).map
    (fun j => (sortedLpBucket (step1Table marked tbl) j).map Prod.fst) with hL
  have hLlen : L.length = BB_DPP3_LP_BUCKET_COUNT := by
    rw [hL, List.length_map, List.length_range]
  have hgetDb : L.getD b [] =
      (sortedLpBucket (step1Table marked tbl) b).map Prod.fst := by
    rw [hL]
    exact getD_map_range _ _ _ _ hb
  have hib : i < (L.getD b []).length := by
    rw [hgetDb, List.length_map]
    exact hi
  have hoff : (((List.range b).map (fun j => (L.getD j []).length)).sum) =
      step2EntryOffset marked tbl b := by
    unfold step2EntryOffset
    refine congrArg List.sum ?_
    apply List.map_congr_left
    intro j hj
    have hjb : j < BB_DPP3_LP_BUCKET_COUNT := by
      have := List.mem_range.1 hj
      omega
    rw [show L.getD j [] =
        (sortedLpBucket (step1Table marked tbl) j).map Prod.fst from by
      rw [hL]; exact getD_map_range _ _ _ _ hjb]
    rw [List.length_map]
    unfold sortedLpBucket
    rw [List.length_mergeSort]
    exact (lpBucketCountsAccum_eq marked tbl j).symm
  have hmain := flatten_get?_block L b i (by rw [hLlen]; exact hb) hib
  rw [hoff] at hmain
  rw [hmain, hgetDb, List.get?_map, get?_eq_getD _ _ (0, 0) hi]
  rfl

/-- C3: the claim's round trip fails for `threadCount > 1`.  The count
pass of `WriteLPMapJob::Run` (DiskPlotPhase3.cpp line 852) scans the
shared window `inKey[0 .. entriesPerThread)` for every thread, while the
write pass (line 863) works on the thread's own slice
`inKey + offset .. inKey + offset + entriesPerThread`.  With two threads
and sorted keys `[2^26, 0]`: both count windows are `take 1 = [2^26]`
(routed to bucket 1), so no slot is budgeted for bucket 0
(`_lMapBucketCounts[0] = 0` and every prefix sum for bucket 0 is 0);
thread 1's write slice is `[0]`, whose key routes to bucket 0, and its
`--pfxSum[0]` wraps to `2^32 - 1` in uint32 arithmetic, violating the
debug `ASSERT( writeIdx < entryCount )` (line 872).  The record for
original index 0 — a surviving entry — is therefore written out of
bounds, so the reverse map does not contain exactly one record whose low
32 bits equal that entry's original index: the claimed round trip is not
a property of the program. -/
theorem c3_step2_count_window_bug :
    writeLPMapJobSliceKeys [2 ^ 26, 0] 2 1 = [0] ∧
    lMapBucketOf 0 = 0 ∧
    (writeLPMapJobSliceKeys [2 ^ 26, 0] 2 1).countP
      (fun k => lMapBucketOf k == 0) = 1 ∧
    writeLPMapJobCounts [2 ^ 26, 0] 2 0 0 = 0 ∧
    writeLPMapJobCounts [2 ^ 26, 0] 2 1 0 = 0 ∧
    writeLPMapBucketCounts [2 ^ 26, 0] 2 0 = 0 ∧
    (([2 ^ 26, (0 : Nat)]).countP (fun k => lMapBucketOf k == 0)) = 1 ∧
    writeLPMapJobPfxSum [2 ^ 26, 0] 2 1 0 = 0 ∧
    ¬ (u32sub (writeLPMapJobPfxSum [2 ^ 26, 0] 2 1 0) 1 <
        ([2 ^ 26, (0 : Nat)]).length) := by
  refine ⟨by decide, by decide, by decide, by decide, by decide, by decide,
    by decide, by decide, by decide⟩
